import Mathlib

/-!
Verification of the perceptual-fingerprint matching and monitoring engine
of the Sentinel repository (src/services/hashingService.ts and
src/services/monitoringService.ts), as a shallow embedding in Lean 4.

JavaScript numbers are modelled as exact rationals wherever every
intermediate value of the source expression is exactly representable as an
IEEE binary64 value (hash distances, similarity percentages); where a
rounded intermediate result is observable - the average-hash pixel
pipeline, and the progress expression (targetsScanned / totalTargets) *
100 of the monitoring loop, whose division and product each round - an
explicit IEEE binary64 rounding model is used.
Ambient localStorage state is passed explicitly: each store becomes a
parameter and a result.  JavaScript exceptions are modelled with Option
(none = the call threw).
-/

set_option maxRecDepth 4000

namespace Sentinel

/-! ## SimilarityComparator: calculateHammingDistance and compareHashes -/

/-- Value of one hex digit, case insensitive, as accepted by the
JavaScript BigInt constructor after a 0x prefix; none for a non-digit.
The ranges are the code points of 0-9, a-f and A-F. -/
def hexDigitVal (c : Char) : Option Nat :=
  if 48 ≤ c.toNat ∧ c.toNat ≤ 57 then some (c.toNat - 48)
  else if 97 ≤ c.toNat ∧ c.toNat ≤ 102 then some (c.toNat - 87)
  else if 65 ≤ c.toNat ∧ c.toNat ≤ 70 then some (c.toNat - 55)
  else none

/-- Accumulating hex parse over a list of characters. -/
def parseHexList : List Char → Nat → Option Nat
  | [], acc => some acc
  | c :: cs, acc =>
    match hexDigitVal c with
    | none => none
    | some d => parseHexList cs (16 * acc + d)

/-- Model of the JavaScript expression BigInt('0x' + s): none models a
thrown SyntaxError (empty string or a non-hex character). -/
def parseHex (s : String) : Option Nat :=
  match s.data with
  | [] => none
  | cs => parseHexList cs 0

/-- Binary digits, least significant first, with structural fuel so the
kernel can evaluate it; fuel n always suffices for input n. -/
def binAuxGo : Nat → Nat → List Bool
  | _, 0 => []
  | 0, _ + 1 => []
  | fuel + 1, n + 1 => decide ((n + 1) % 2 = 1) :: binAuxGo fuel ((n + 1) / 2)

/-- Binary digits of a natural number, least significant first; the empty
list for 0. -/
def binAux (n : Nat) : List Bool := binAuxGo n n

/-- Model of n.toString(2): most significant bit first, and the single
digit 0 for the number 0. -/
def natToBin (n : Nat) : List Bool :=
  if n = 0 then [false] else (binAux n).reverse

/-- Model of the string method padStart(64, '0') on a bit string. -/
def padTo64 (l : List Bool) : List Bool :=
  List.replicate (64 - l.length) false ++ l

/-- The character-comparison loop of calculateHammingDistance: count the
indices of the first string at which the second string differs (an index
past the end of the second string counts as a difference, as the
JavaScript undefined comparison would). -/
def hammingLoop (b1 b2 : List Bool) : Nat :=
  (List.range b1.length).countP fun i => decide (b1[i]? ≠ b2[i]?)

/-- The 64-character binary rendering BigInt value -> toString(2) ->
padStart(64, '0') used on both hashes. -/
def bits64 (n : Nat) : List Bool := padTo64 (natToBin n)

/-- Shallow embedding of calculateHammingDistance (hashingService.ts,
lines 179-188); none models a thrown exception from BigInt parsing. -/
def calculateHammingDistance (hash1 hash2 : String) : Option Nat :=
  match parseHex hash1, parseHex hash2 with
  | some n1, some n2 => some (hammingLoop (bits64 n1) (bits64 n2))
  | _, _ => none

/-- Math.round on an exactly-represented nonnegative value: floor of the
value plus one half. -/
def jsRound (q : ℚ) : ℤ := ⌊q + 1 / 2⌋

/-- Result record of compareHashes (interface HashComparison). -/
structure HashComparison where
  hash1 : String
  hash2 : String
  hammingDistance : Nat
  similarity : ℤ
  isMatch : Bool
  deriving DecidableEq

/-- Shallow embedding of compareHashes (hashingService.ts, lines 193-204).
Every intermediate of the similarity expression is an exactly
representable binary64 value, so the rational model is exact. -/
def compareHashes (hash1 hash2 : String) (threshold : Nat := 10) : Option HashComparison :=
  (calculateHammingDistance hash1 hash2).map fun d =>
    { hash1 := hash1
      hash2 := hash2
      hammingDistance := d
      similarity := jsRound ((1 - (d : ℚ) / 64) * 100)
      isMatch := decide (d ≤ threshold) }

/-- Population count of the low 64 bits. -/
def popCount64 (n : Nat) : Nat :=
  (List.range 64).countP fun i => n.testBit i

/-- A string of exactly 16 hex digits, i.e. a hash that decodes to
exactly 64 bits. -/
def IsHex16 (s : String) : Prop :=
  s.data.length = 16 ∧ ∀ c ∈ s.data, (hexDigitVal c).isSome

instance (s : String) : Decidable (IsHex16 s) := by
  unfold IsHex16; infer_instance

/-! ## FingerprintVault: storeHashInVault and searchVaultForMatches -/

/-- The three hash algorithms of the engine. -/
inductive Algorithm where
  | aHash
  | dHash
  | pHash
  deriving DecidableEq

/-- Result record of a hash generator (interface HashResult). -/
structure HashResult where
  hash : String
  algorithm : Algorithm
  size : String
  timestamp : Nat
  deriving DecidableEq

/-- The three per-asset hashes stored by the vault; storeHashInVault always
receives all three, so the record is total. -/
structure VaultHashes where
  aHash : HashResult
  dHash : HashResult
  pHash : HashResult
  deriving DecidableEq

/-- The hash the vault search reads for a given algorithm (the expression
entry.hashes[algorithm] of the source). -/
def VaultHashes.get (h : VaultHashes) : Algorithm → HashResult
  | .aHash => h.aHash
  | .dHash => h.dHash
  | .pHash => h.pHash

/-- Metadata attached to a vault record. -/
structure VaultMetadata where
  filename : Option String
  description : Option String
  deriving DecidableEq

/-- One record of the sentinel_hash_vault store. -/
structure VaultEntry where
  id : String
  hashes : VaultHashes
  metadata : VaultMetadata
  storedAt : Nat
  deriving DecidableEq

/-- Shallow embedding of storeHashInVault (hashingService.ts, lines
226-243): the ambient localStorage vault is the last argument and the
result; the source pushes the new record at the end of the parsed array. -/
def storeHashInVault (assetId : String) (hashes : VaultHashes)
    (metadata : VaultMetadata) (now : Nat) (vault : List VaultEntry) : List VaultEntry :=
  vault ++ [{ id := assetId, hashes := hashes, metadata := metadata, storedAt := now }]

/-- One result row of searchVaultForMatches. -/
structure VaultMatch where
  assetId : String
  similarity : ℤ
  storedAt : Nat
  deriving DecidableEq

/-- The collection loop of searchVaultForMatches: none models an exception
thrown by compareHashes inside the try block. -/
def collectMatches (targetHash : String) (algorithm : Algorithm) (threshold : Nat) :
    List VaultEntry → Option (List VaultMatch)
  | [] => some []
  | e :: rest =>
    match compareHashes targetHash (e.hashes.get algorithm).hash threshold with
    | none => none
    | some c =>
      match collectMatches targetHash algorithm threshold rest with
      | none => none
      | some ms =>
        some (if c.isMatch then
          { assetId := e.id, similarity := c.similarity, storedAt := e.storedAt } :: ms
        else ms)

/-- The comparator b.similarity - a.similarity sorts descending by
similarity; JavaScript Array.prototype.sort is stable, modelled by a
stable merge sort with this total preorder. -/
def vaultMatchLE (a b : VaultMatch) : Bool := decide (b.similarity ≤ a.similarity)

/-- Shallow embedding of searchVaultForMatches (hashingService.ts, lines
248-276): an exception anywhere in the loop is caught and yields []. -/
def searchVaultForMatches (targetHash : String) (algorithm : Algorithm) (threshold : Nat)
    (vault : List VaultEntry) : List VaultMatch :=
  match collectMatches targetHash algorithm threshold vault with
  | none => []
  | some ms => ms.mergeSort vaultMatchLE

/-- Specification-side description of one qualifying search row: the entry
qualifies exactly when its stored hash for the algorithm is within Hamming
distance threshold of the target. -/
def matchWithinThreshold (targetHash : String) (algorithm : Algorithm) (threshold : Nat)
    (e : VaultEntry) : Option VaultMatch :=
  match calculateHammingDistance targetHash (e.hashes.get algorithm).hash with
  | none => none
  | some d =>
    if d ≤ threshold then
      some { assetId := e.id, similarity := jsRound ((1 - (d : ℚ) / 64) * 100),
             storedAt := e.storedAt }
    else none

/-! ## HashEngine: generateAverageHash under IEEE binary64 semantics

The pixel pipeline of generateAverageHash adds 64 grayscale doubles; that
accumulation is observably inexact, so this part is modelled with explicit
IEEE binary64 round-to-nearest-even arithmetic.  A finite double is a
dyadic rational m * 2^e; all inputs stay in the normal range, far from
overflow and underflow, so exponent limits never bind. -/

/-- A dyadic rational m * 2^e, representing a finite IEEE binary64 value. -/
structure Dy where
  m : ℤ
  e : ℤ
  deriving DecidableEq

/-- Bit length of a natural number (0 for 0). -/
def bitLen (n : Nat) : Nat := (binAux n).length

/-- Round a dyadic value to 53 significant bits, nearest, ties to even:
the IEEE binary64 rounding of an exact intermediate result. -/
def flDy (x : Dy) : Dy :=
  if x.m = 0 then ⟨0, 0⟩
  else
    let n := x.m.natAbs
    let L := bitLen n
    if L ≤ 53 then x
    else
      let k := L - 53
      let q := n / 2 ^ k
      let r := n % 2 ^ k
      let half := 2 ^ (k - 1)
      let q2 := if r < half then q
                else if half < r then q + 1
                else if q % 2 = 0 then q else q + 1
      ⟨if x.m < 0 then -(q2 : ℤ) else (q2 : ℤ), x.e + k⟩

/-- Exact sum of two dyadic values. -/
def Dy.addExact (x y : Dy) : Dy :=
  let e := min x.e y.e
  ⟨x.m * 2 ^ (x.e - e).toNat + y.m * 2 ^ (y.e - e).toNat, e⟩

/-- Exact product of two dyadic values. -/
def Dy.mulExact (x y : Dy) : Dy := ⟨x.m * y.m, x.e + y.e⟩

/-- Exact strict comparison of two dyadic values (IEEE comparison of
finite doubles is exact). -/
def Dy.blt (x y : Dy) : Bool :=
  let e := min x.e y.e
  decide (x.m * 2 ^ (x.e - e).toNat < y.m * 2 ^ (y.e - e).toNat)

/-- IEEE binary64 addition. -/
def fadd (x y : Dy) : Dy := flDy (x.addExact y)

/-- IEEE binary64 multiplication. -/
def fmul (x y : Dy) : Dy := flDy (x.mulExact y)

/-- IEEE binary64 division by 64 = 2^6: exact on binary64 values, a pure
exponent shift. -/
def fdiv64 (x : Dy) : Dy := ⟨x.m, x.e - 6⟩

/-- The IEEE binary64 value nearest to n / d (n, d positive), ties to
even: the double denoted by a decimal source literal such as 0.299. -/
def flQ (n d : Nat) : Dy :=
  if n = 0 ∨ d = 0 then ⟨0, 0⟩
  else
    let shift := 120 + bitLen d
    let a := n * 2 ^ shift
    let q := a / d
    let r := a % d
    let k := bitLen q - 53
    let high := q / 2 ^ k
    let rem := q % 2 ^ k
    let half := 2 ^ (k - 1)
    let m := if rem < half then high
             else if half < rem then high + 1
             else if r ≠ 0 then high + 1
             else if high % 2 = 0 then high else high + 1
    ⟨(m : ℤ), (k : ℤ) - (shift : ℤ)⟩

/-- The exact rational value of a dyadic. -/
def Dy.val (x : Dy) : ℚ := (x.m : ℚ) * (2 : ℚ) ^ x.e

/-- Math.round on the exact value v of a finite double: the nearest
integer, ties toward plus infinity, i.e. floor(v + 1/2) (ECMA-262
Math.round on a non-negative finite argument). -/
def jsRoundDy (x : Dy) : ℤ :=
  if 0 ≤ x.e then x.m * 2 ^ x.e.toNat
  else Int.fdiv (2 * x.m + 2 ^ (-x.e).toNat) (2 ^ ((-x.e).toNat + 1))

/-- Math.round((ts / total) * 100) as the source evaluates it in
binary64 (monitoringService.ts, line 238): the division rounds to the
nearest double, the product with 100 rounds again, and Math.round takes
the nearest integer.  ts and total are exact small integers; the loop
never divides by zero (pairs exist only when total >= 1). -/
def progressValue (ts total : Nat) : ℤ := jsRoundDy (fmul (flQ ts total) ⟨100, 0⟩)

/-- The shared mantissa-rounding kernel of flDy and flQ, for a
significand q of more than 53 bits: round q to 53 bits, nearest, with a
sticky remainder r breaking exact ties upward and an even mantissa
breaking the remaining ties. -/
def flQM (q r : Nat) : Nat :=
  let k := bitLen q - 53
  let high := q / 2 ^ k
  let rem := q % 2 ^ k
  let half := 2 ^ (k - 1)
  if rem < half then high
  else if half < rem then high + 1
  else if r ≠ 0 then high + 1
  else if high % 2 = 0 then high else high + 1

/-- The double denoted by the literal 0.299. -/
def c299 : Dy := flQ 299 1000

/-- The double denoted by the literal 0.587. -/
def c587 : Dy := flQ 587 1000

/-- The double denoted by the literal 0.114. -/
def c114 : Dy := flQ 114 1000

/-- Shallow embedding of toGrayscale (hashingService.ts, lines 56-66) on
the flat RGBA byte array of an ImageData, under binary64 arithmetic:
0.299 * r + 0.587 * g + 0.114 * b, left associated, one rounding per
operation. -/
def toGrayscale : List Nat → List Dy
  | r :: g :: b :: _ :: rest =>
    fadd (fadd (fmul c299 ⟨r, 0⟩) (fmul c587 ⟨g, 0⟩)) (fmul c114 ⟨b, 0⟩) :: toGrayscale rest
  | _ => []

/-- BigInt of a most-significant-first bit string. -/
def bitsToNat (bits : List Bool) : Nat :=
  bits.foldl (fun acc b => 2 * acc + cond b 1 0) 0

/-- Uppercase hex digit of a value below 16. -/
def hexChar (d : Nat) : Char :=
  if d < 10 then Char.ofNat (48 + d) else Char.ofNat (55 + d)

/-- Hex digits, least significant first, with structural fuel. -/
def hexAuxGo : Nat → Nat → List Char
  | _, 0 => []
  | 0, _ + 1 => []
  | fuel + 1, n + 1 => hexChar ((n + 1) % 16) :: hexAuxGo fuel ((n + 1) / 16)

/-- Model of n.toString(16).padStart(16, '0').toUpperCase(): the source
uppercases after rendering, the model renders uppercase directly. -/
def natToHex16 (n : Nat) : String :=
  let ds := if n = 0 then ['0'] else (hexAuxGo n n).reverse
  ⟨List.replicate (16 - ds.length) '0' ++ ds⟩

/-- Shallow embedding of the pixel portion of generateAverageHash
(hashingService.ts, lines 72-95) on an already decoded 8x8 RGBA buffer:
grayscale, mean, strict greater-than bits in raster order, hex encoding.
Arithmetic is binary64, as in the source. -/
def generateAverageHash (data : List Nat) (now : Nat) : HashResult :=
  let gray := toGrayscale data
  let avg := fdiv64 (gray.foldl fadd ⟨0, 0⟩)
  let bits := gray.map fun pixel => Dy.blt avg pixel
  { hash := natToHex16 (bitsToNat bits)
    algorithm := .aHash
    size := "64-bit"
    timestamp := now }

/-! ## ScanOrchestrator and AlertStore (monitoringService.ts) -/

/-- Target category (monitoringService.ts, line 10). -/
inductive TargetCategory where
  | adult
  | social
  | forum
  | file_sharing
  deriving DecidableEq

/-- Risk level of a monitoring target. -/
inductive RiskLevel where
  | high
  | medium
  | low
  deriving DecidableEq

/-- Interface MonitoringTarget. -/
structure MonitoringTarget where
  id : String
  name : String
  category : TargetCategory
  riskLevel : RiskLevel
  enabled : Bool
  lastScanned : Option Nat
  matchesFound : Nat
  deriving DecidableEq

/-- Session status (interface MonitoringSession). -/
inductive SessionStatus where
  | idle
  | scanning
  | completed
  | error
  deriving DecidableEq

/-- Interface MonitoringSession. -/
structure MonitoringSession where
  id : String
  status : SessionStatus
  startedAt : Option Nat
  completedAt : Option Nat
  targetsScanned : Nat
  totalTargets : Nat
  matchesFound : Nat
  currentTarget : Option String
  progress : ℤ
  deriving DecidableEq

/-- Alert type (interface ContentAlert). -/
inductive AlertType where
  | match_found
  | potential_match
  | scan_complete
  deriving DecidableEq

/-- Alert severity. -/
inductive AlertSeverity where
  | critical
  | warning
  | info
  deriving DecidableEq

/-- Interface ContentAlert. -/
structure ContentAlert where
  id : String
  type : AlertType
  severity : AlertSeverity
  timestamp : Nat
  title : String
  description : String
  targetSite : Option String
  matchUrl : Option String
  similarity : Option ℤ
  read : Bool
  assetId : Option String
  deriving DecidableEq

/-- Interface ProtectedAsset. -/
structure ProtectedAsset where
  id : String
  filename : String
  thumbnailUrl : String
  pHash : String
  dHash : String
  aHash : String
  uploadedAt : Nat
  lastScanned : Option Nat
  matchCount : Nat
  monitoringEnabled : Bool
  deriving DecidableEq

/-- Shallow embedding of saveAlert (monitoringService.ts, lines 141-146):
unshift at the head of the parsed store, then keep the first 100. -/
def saveAlert (alert : ContentAlert) (alerts : List ContentAlert) : List ContentAlert :=
  (alert :: alerts).take 100

/-- Shallow embedding of markAlertRead (monitoringService.ts, lines
151-158): find the first alert with the id, set its read flag, and write
the store back; without a match the store is not written. -/
def markAlertRead (alertId : String) : List ContentAlert → List ContentAlert
  | [] => []
  | a :: rest =>
    if a.id = alertId then { a with read := true } :: rest
    else a :: markAlertRead alertId rest

/-- Shallow embedding of getUnreadAlertCount (monitoringService.ts, lines
163-165). -/
def getUnreadAlertCount (alerts : List ContentAlert) : Nat :=
  (alerts.filter fun a => !a.read).length

/-- Shallow embedding of clearAllAlerts (monitoringService.ts, lines
321-323). -/
def clearAllAlerts : List ContentAlert := []

/-- Shallow embedding of saveProtectedAsset (monitoringService.ts, lines
85-94): replace the first store record with the same id, otherwise push
at the end. -/
def saveProtectedAsset (asset : ProtectedAsset) : List ProtectedAsset → List ProtectedAsset
  | [] => [asset]
  | a :: rest =>
    if a.id = asset.id then asset :: rest
    else a :: saveProtectedAsset asset rest

/-- Outcome of one crawl call: the external collaborator returns a result
object or throws.  The source crawler (simulateCrawl) is randomized, so
the run is modelled as a function of an outcome oracle indexed by the
0-based position of the pair in scan order. -/
inductive CrawlOutcome where
  | ok (found : Bool) (similarity : ℚ) (url : Option String)
  | err
  deriving DecidableEq

/-- JavaScript truthiness of the optional url field: undefined and the
empty string are falsy. -/
def truthyUrl : Option String → Bool
  | none => false
  | some s => decide (s ≠ "")

/-- The whole mutable state a scan touches, plus two chronological logs of
its observable effects: every session snapshot passed to the onProgress
callback, and every alert passed to saveAlert. -/
structure ScanState where
  session : MonitoringSession
  assets : List ProtectedAsset
  alerts : List ContentAlert
  emitted : List ContentAlert
  reports : List MonitoringSession
  history : List MonitoringSession
  deriving DecidableEq

/-- Invoke the onProgress callback: record the current session snapshot. -/
def ScanState.report (st : ScanState) : ScanState :=
  { st with reports := st.reports ++ [st.session] }

/-- Persist one alert: the bounded store is updated and the emission is
logged. -/
def ScanState.emit (alert : ContentAlert) (st : ScanState) : ScanState :=
  { st with alerts := saveAlert alert st.alerts, emitted := st.emitted ++ [alert] }

/-- The session bookkeeping done for one pair before the crawl: set
currentTarget, advance the pair counter, recompute the rounded progress.
The progress is Math.round((targetsScanned / totalTargets) * 100)
evaluated in binary64, which can differ by one from the rounding of the
exact ratio (e.g. 23/40: the float product is 57.49999999999999, so the
code reports 57 where exact arithmetic gives 58). -/
def pairSession (target : MonitoringTarget) (s : MonitoringSession) : MonitoringSession :=
  { s with
      currentTarget := some target.name
      targetsScanned := s.targetsScanned + 1
      progress := progressValue (s.targetsScanned + 1) s.totalTargets }

/-- The critical alert emitted for a reported match.  The random id
suffix of the source is modelled by the pair position. -/
def matchAlert (now idx : Nat) (target : MonitoringTarget) (asset : ProtectedAsset)
    (sim : ℚ) (url : Option String) : ContentAlert :=
  { id := "alert_" ++ Nat.repr now ++ "_" ++ Nat.repr idx
    type := .match_found
    severity := .critical
    timestamp := now
    title := "Potential Match Detected!"
    description := "Content similar to \"" ++ asset.filename ++ "\" found on " ++ target.name
    targetSite := some target.name
    matchUrl := url
    similarity := some (jsRound sim)
    read := false
    assetId := some asset.id }

/-- One iteration of the inner loop of runMonitoringScan
(monitoringService.ts, lines 235-272): progress bookkeeping, the
onProgress call, the guarded crawl, and the match branch. -/
def scanPair (now : Nat) (oracle : Nat → CrawlOutcome) (target : MonitoringTarget) :
    ProtectedAsset × ScanState → ProtectedAsset × ScanState
  | (asset, st) =>
    let idx := st.session.targetsScanned
    let st1 := ScanState.report { st with session := pairSession target st.session }
    match oracle idx with
    | .err => (asset, st1)
    | .ok found sim url =>
      if found && truthyUrl url then
        let asset' := { asset with
          matchCount := asset.matchCount + 1
          lastScanned := some now }
        let st2 := { st1 with
          session := { st1.session with matchesFound := st1.session.matchesFound + 1 }
          assets := saveProtectedAsset asset' st1.assets }
        let st3 := st2.emit (matchAlert now idx target asset sim url)
        (asset', st3.report)
      else (asset, st1)

/-- The outer-loop body of runMonitoringScan: the inner target loop, then
the per-asset lastScanned update and persist. -/
def scanAsset (now : Nat) (oracle : Nat → CrawlOutcome) (targets : List MonitoringTarget)
    (st : ScanState) (asset : ProtectedAsset) : ScanState :=
  let p := targets.foldl (fun acc t => scanPair now oracle t acc) (asset, st)
  { p.2 with assets := saveProtectedAsset { p.1 with lastScanned := some now } p.2.assets }

/-- The summary alert of a completed scan. -/
def summaryAlert (now : Nat) (matchesFound : Nat) (targetCount assetCount : Nat) : ContentAlert :=
  { id := "alert_" ++ Nat.repr now
    type := .scan_complete
    severity := if matchesFound > 0 then .warning else .info
    timestamp := now
    title := "Scan Complete"
    description :=
      if matchesFound > 0 then
        "Found " ++ Nat.repr matchesFound ++ " potential match(es) across " ++
          Nat.repr targetCount ++ " sites."
      else
        "No matches found. Scanned " ++ Nat.repr targetCount ++ " sites for " ++
          Nat.repr assetCount ++ " protected asset(s)."
    targetSite := none
    matchUrl := none
    similarity := none
    read := false
    assetId := none }

/-- The informational alert of a scan with no enabled assets. -/
def noAssetsAlert (now : Nat) : ContentAlert :=
  { id := "alert_" ++ Nat.repr now
    type := .scan_complete
    severity := .info
    timestamp := now
    title := "No Assets to Monitor"
    description := "Add protected assets to enable continuous monitoring."
    targetSite := none
    matchUrl := none
    similarity := none
    read := false
    assetId := none }

/-- Shallow embedding of runMonitoringScan (monitoringService.ts, lines
197-305).  The ambient stores are explicit arguments; the crawler is the
outcome oracle; all observable callback and alert traffic is logged in
the resulting ScanState. -/
def runMonitoringScan (now : Nat) (oracle : Nat → CrawlOutcome)
    (assetStore : List ProtectedAsset) (targetStore : List MonitoringTarget)
    (alertStore : List ContentAlert) (historyStore : List MonitoringSession) : ScanState :=
  let assets := assetStore.filter fun a => a.monitoringEnabled
  let targets := targetStore.filter fun t => t.enabled
  let session : MonitoringSession :=
    { id := "scan_" ++ Nat.repr now
      status := .scanning
      startedAt := some now
      completedAt := none
      targetsScanned := 0
      totalTargets := targets.length * assets.length
      matchesFound := 0
      currentTarget := none
      progress := 0 }
  let st : ScanState :=
    { session := session, assets := assetStore, alerts := alertStore,
      emitted := [], reports := [], history := historyStore }
  let st := st.report
  if assets.isEmpty then
    let st := { st with session :=
      { st.session with status := .completed, completedAt := some now, progress := 100 } }
    let st := st.emit (noAssetsAlert now)
    st.report
  else
    let st := assets.foldl (scanAsset now oracle targets) st
    let st := { st with session :=
      { st.session with status := .completed, completedAt := some now,
                        progress := 100, currentTarget := none } }
    let st := st.emit (summaryAlert now st.session.matchesFound targets.length assets.length)
    let st := st.report
    { st with history := (st.session :: st.history).take 50 }

/-- Number of match_found alerts in a chronological emission log. -/
def countMatchFound (l : List ContentAlert) : Nat :=
  (l.filter fun a => decide (a.type = AlertType.match_found)).length

/-- What every session snapshot handed to onProgress satisfies: the fixed
total, no error status, and either the per-pair rounding formula or the
terminal completed state at progress 100. -/
def reportOK (n : Nat) (r : MonitoringSession) : Prop :=
  r.totalTargets = n ∧ r.status ≠ .error ∧
  (r.progress = progressValue r.targetsScanned n ∨
    (r.status = .completed ∧ r.progress = 100))

/-- Loop invariant of the scan: the session is mid-scan with the rounded
progress of its pair counter, the report log is nonempty, ends with the
current progress, is non-decreasing in progress, and every snapshot is
well formed. -/
def scanInv (n : Nat) (st : ScanState) : Prop :=
  st.session.totalTargets = n ∧
  st.session.status = .scanning ∧
  st.session.progress = progressValue st.session.targetsScanned n ∧
  st.reports ≠ [] ∧
  st.reports.getLast?.map (fun r => r.progress) = some st.session.progress ∧
  (st.reports.map (fun r => r.progress)).Chain' (· ≤ ·) ∧
  (∀ r ∈ st.reports, reportOK n r)

/-! ## Concrete sample data used by witnesses and counterexamples -/

/-- A sample HashResult. -/
def exHashResult (a : Algorithm) (h : String) : HashResult :=
  { hash := h, algorithm := a, size := "64-bit", timestamp := 0 }

/-- Sample vault hashes, all-zero hash for each algorithm. -/
def exVaultHashes0 : VaultHashes :=
  { aHash := exHashResult .aHash "0000000000000000"
    dHash := exHashResult .dHash "0000000000000000"
    pHash := exHashResult .pHash "0000000000000000" }

/-- Sample vault hashes, all-one hash for each algorithm. -/
def exVaultHashesF : VaultHashes :=
  { aHash := exHashResult .aHash "FFFFFFFFFFFFFFFF"
    dHash := exHashResult .dHash "FFFFFFFFFFFFFFFF"
    pHash := exHashResult .pHash "FFFFFFFFFFFFFFFF" }

/-- Sample empty metadata. -/
def exMetadata : VaultMetadata := { filename := none, description := none }

/-- A sample vault entry close to the zero target. -/
def exEntry1 : VaultEntry :=
  { id := "asset_1", hashes := exVaultHashes0, metadata := exMetadata, storedAt := 0 }

/-- A sample vault entry far from the zero target. -/
def exEntry2 : VaultEntry :=
  { id := "asset_2", hashes := exVaultHashesF, metadata := exMetadata, storedAt := 1 }

/-- A sample protected asset with monitoring enabled. -/
def exAsset (i : String) : ProtectedAsset :=
  { id := i, filename := i ++ ".jpg", thumbnailUrl := "thumb"
    pHash := "0000000000000000", dHash := "0000000000000000", aHash := "0000000000000000"
    uploadedAt := 0, lastScanned := none, matchCount := 0, monitoringEnabled := true }

/-- Two enabled assets, for the concrete scan scenario. -/
def exampleAssets : List ProtectedAsset := [exAsset "asset_1", exAsset "asset_2"]

/-- A sample monitoring target. -/
def exTarget (i nm : String) (en : Bool) : MonitoringTarget :=
  { id := i, name := nm, category := .adult, riskLevel := .high,
    enabled := en, lastScanned := none, matchesFound := 0 }

/-- Four targets, three enabled and one disabled, for the concrete scan
scenario. -/
def exampleTargets : List MonitoringTarget :=
  [exTarget "t1" "SiteA" true, exTarget "t2" "SiteB" true,
   exTarget "t3" "SiteC" false, exTarget "t4" "SiteD" true]

/-- Forty enabled targets, for the scenario exhibiting the binary64
progress rounding: at pair 23 of 40 the code reports 57, not 58. -/
def exTargets40 : List MonitoringTarget :=
  (List.range 40).map fun i => exTarget ("t" ++ Nat.repr i) "SiteA" true

/-- A sample alert. -/
def exAlert : ContentAlert :=
  { id := "alert_x", type := .scan_complete, severity := .info, timestamp := 0,
    title := "t", description := "d", targetSite := none, matchUrl := none,
    similarity := none, read := false, assetId := none }

/-- A freshly started scan state for the concrete scenario. -/
def exScanState : ScanState :=
  { session :=
      { id := "scan_0", status := .scanning, startedAt := some 0, completedAt := none,
        targetsScanned := 0, totalTargets := 6, matchesFound := 0, currentTarget := none,
        progress := 0 }
    assets := exampleAssets, alerts := [], emitted := [], reports := [], history := [] }

/-- A crawler oracle that never reports a match. -/
def noMatchOracle : Nat → CrawlOutcome := fun _ => .ok false 0 none

/-- A crawler oracle that always throws. -/
def errOracle : Nat → CrawlOutcome := fun _ => .err

/-- A crawler oracle that always reports a match with similarity 80. -/
def matchOracle : Nat → CrawlOutcome := fun _ => .ok true 80 (some "https://sitea.example/abc")

/-! ## Lemmas: binary rendering and the popcount characterisation -/

theorem binAuxGo_congr : ∀ f1 f2 n : Nat, n ≤ f1 → n ≤ f2 → binAuxGo f1 n = binAuxGo f2 n := by
  intro f1
  induction f1 with
  | zero =>
    intro f2 n h1 _
    interval_cases n
    cases f2 <;> rfl
  | succ f ih =>
    intro f2 n h1 h2
    match n, f2 with
    | 0, f2 => cases f2 <;> rfl
    | m + 1, 0 => omega
    | m + 1, g + 1 =>
      show _ :: binAuxGo f ((m + 1) / 2) = _ :: binAuxGo g ((m + 1) / 2)
      rw [ih g ((m + 1) / 2) (by omega) (by omega)]

theorem binAux_eq (n : Nat) :
    binAux n = if n = 0 then [] else decide (n % 2 = 1) :: binAux (n / 2) := by
  match n with
  | 0 => rfl
  | m + 1 =>
    show binAuxGo (m + 1) (m + 1) = _
    simp only [Nat.succ_ne_zero, if_neg]
    show _ :: binAuxGo m ((m + 1) / 2) = _ :: binAuxGo ((m + 1) / 2) ((m + 1) / 2)
    rw [binAuxGo_congr m ((m + 1) / 2) ((m + 1) / 2) (by omega) (by omega)]

theorem binAux_get (n : Nat) :
    ∀ i, i < (binAux n).length → (binAux n)[i]? = some (n.testBit i) := by
  induction n using Nat.strongRecOn with
  | _ n ih =>
    intro i hi
    rw [binAux_eq] at hi ⊢
    by_cases h0 : n = 0
    · simp [h0] at hi
    · simp only [if_neg h0] at hi ⊢
      match i with
      | 0 =>
        simp [Nat.testBit_zero]
      | j + 1 =>
        have hj : j < (binAux (n / 2)).length := by simpa using hi
        have hrec := ih (n / 2) (Nat.div_lt_self (Nat.pos_of_ne_zero h0) Nat.one_lt_two) j hj
        simp [List.getElem?_cons, hrec, Nat.testBit_succ]

theorem binAux_testBit_of_le (n : Nat) :
    ∀ i, (binAux n).length ≤ i → n.testBit i = false := by
  induction n using Nat.strongRecOn with
  | _ n ih =>
    intro i hi
    by_cases h0 : n = 0
    · simp [h0, Nat.zero_testBit]
    · rw [binAux_eq, if_neg h0] at hi
      match i with
      | 0 => simp at hi
      | j + 1 =>
        rw [Nat.testBit_succ]
        exact ih (n / 2) (Nat.div_lt_self (Nat.pos_of_ne_zero h0) Nat.one_lt_two) j
          (by simpa using hi)

theorem binAux_length_le : ∀ k n : Nat, n < 2 ^ k → (binAux n).length ≤ k := by
  intro k
  induction k with
  | zero =>
    intro n hn
    interval_cases n
    simp [binAux, binAuxGo]
  | succ k ih =>
    intro n hn
    by_cases h0 : n = 0
    · simp [h0, binAux, binAuxGo]
    · rw [binAux_eq, if_neg h0]
      have : n / 2 < 2 ^ k := by
        rw [Nat.div_lt_iff_lt_mul Nat.two_pos]
        calc n < 2 ^ (k + 1) := hn
        _ = 2 ^ k * 2 := by rw [Nat.pow_succ]
      simpa using ih (n / 2) this

theorem bits64_length (n : Nat) (h : n < 2 ^ 64) : (bits64 n).length = 64 := by
  unfold bits64 padTo64 natToBin
  by_cases h0 : n = 0
  · simp [h0]
  · rw [if_neg h0]
    have hl : (binAux n).length ≤ 64 := binAux_length_le 64 n h
    simp only [List.length_append, List.length_replicate, List.length_reverse]
    omega

theorem bits64_get (n : Nat) (h : n < 2 ^ 64) (i : Nat) (hi : i < 64) :
    (bits64 n)[i]? = some (n.testBit (63 - i)) := by
  unfold bits64 padTo64 natToBin
  by_cases h0 : n = 0
  · rw [if_pos h0]
    have : List.replicate (64 - [false].length) false ++ [false] = List.replicate 64 false := by
      simp [← List.replicate_succ']
    rw [this, List.getElem?_replicate, if_pos hi, h0, Nat.zero_testBit]
  · rw [if_neg h0]
    have hl : (binAux n).length ≤ 64 := binAux_length_le 64 n h
    set L := (binAux n).length with hL
    rw [List.getElem?_append]
    simp only [List.length_replicate, List.length_reverse, ← hL]
    by_cases hio : i < 64 - L
    · rw [if_pos hio, List.getElem?_replicate, if_pos hio]
      have : L ≤ 63 - i := by omega
      rw [binAux_testBit_of_le n (63 - i) this]
    · rw [if_neg hio]
      have hj : i - (64 - L) < (binAux n).length := by
        simp only [← hL]; omega
      rw [List.getElem?_reverse hj]
      simp only [← hL]
      have harg : L - 1 - (i - (64 - L)) = 63 - i := by omega
      rw [harg, binAux_get n (63 - i) (by omega)]

theorem range_reverse_map (k : Nat) :
    (List.range k).reverse = (List.range k).map (fun i => k - 1 - i) := by
  apply List.ext_getElem?
  intro j
  by_cases hj : j < k
  · rw [List.getElem?_reverse (by simpa using hj)]
    simp only [List.length_range, List.getElem?_map, List.getElem?_range hj,
      List.getElem?_range (show k - 1 - j < k by omega), Option.map_some']
  · rw [List.getElem?_eq_none, List.getElem?_eq_none]
    · simp only [List.length_map, List.length_range]; omega
    · simp only [List.length_reverse, List.length_range]; omega

theorem countP_reflect (p : Nat → Bool) (k : Nat) :
    (List.range k).countP (fun i => p (k - 1 - i)) = (List.range k).countP p := by
  have h1 : (List.range k).countP (fun i => p (k - 1 - i)) =
      ((List.range k).map (fun i => k - 1 - i)).countP p := by
    rw [List.countP_map]
    rfl
  rw [h1, ← range_reverse_map]
  simp [List.countP_eq_length_filter, List.filter_reverse]

theorem hammingLoop_popCount (n1 n2 : Nat) (h1 : n1 < 2 ^ 64) (h2 : n2 < 2 ^ 64) :
    hammingLoop (bits64 n1) (bits64 n2) = popCount64 (n1 ^^^ n2) := by
  unfold hammingLoop popCount64
  rw [bits64_length n1 h1]
  have hcong : ∀ i ∈ List.range 64,
      (decide ((bits64 n1)[i]? ≠ (bits64 n2)[i]?) = true ↔
        (n1 ^^^ n2).testBit (63 - i) = true) := by
    intro i hi
    have hi' : i < 64 := List.mem_range.mp hi
    rw [bits64_get n1 h1 i hi', bits64_get n2 h2 i hi', Nat.testBit_xor]
    rcases Bool.eq_false_or_eq_true (n1.testBit (63 - i)) with hb1 | hb1 <;>
      rcases Bool.eq_false_or_eq_true (n2.testBit (63 - i)) with hb2 | hb2 <;>
        simp [hb1, hb2]
  rw [List.countP_congr hcong]
  exact countP_reflect (fun j => (n1 ^^^ n2).testBit j) 64

theorem popCount64_le (n : Nat) : popCount64 n ≤ 64 := by
  calc popCount64 n ≤ (List.range 64).length := List.countP_le_length _
  _ = 64 := List.length_range 64

/-! ## Lemmas: hex parsing and the distance specification -/

theorem hexDigitVal_le15 (c : Char) (d : Nat) (hd : hexDigitVal c = some d) : d ≤ 15 := by
  unfold hexDigitVal at hd
  split at hd
  · rename_i h
    simp only [Option.some.injEq] at hd
    omega
  · split at hd
    · rename_i h
      simp only [Option.some.injEq] at hd
      omega
    · split at hd
      · rename_i h
        simp only [Option.some.injEq] at hd
        omega
      · exact absurd hd (by simp)

theorem parseHexList_some :
    ∀ (cs : List Char) (acc : Nat), (∀ c ∈ cs, (hexDigitVal c).isSome) →
      ∃ v, parseHexList cs acc = some v ∧ v < (acc + 1) * 16 ^ cs.length := by
  intro cs
  induction cs with
  | nil =>
    intro acc _
    exact ⟨acc, rfl, by simp⟩
  | cons c cs ih =>
    intro acc hall
    have hc : (hexDigitVal c).isSome := hall c (List.mem_cons_self c cs)
    obtain ⟨d, hd⟩ := Option.isSome_iff_exists.mp hc
    have hd15 : d ≤ 15 := hexDigitVal_le15 c d hd
    obtain ⟨v, hv, hvlt⟩ := ih (16 * acc + d) (fun x hx => hall x (List.mem_cons_of_mem c hx))
    refine ⟨v, ?_, ?_⟩
    · show parseHexList (c :: cs) acc = some v
      unfold parseHexList
      rw [hd]
      exact hv
    · calc v < (16 * acc + d + 1) * 16 ^ cs.length := hvlt
      _ ≤ (16 * acc + 16) * 16 ^ cs.length := by
          apply Nat.mul_le_mul_right
          omega
      _ = (acc + 1) * 16 ^ (c :: cs).length := by
          simp only [List.length_cons, Nat.pow_succ]
          ring

theorem parseHex_of_isHex16 (s : String) (h : IsHex16 s) :
    ∃ n, parseHex s = some n ∧ n < 2 ^ 64 := by
  obtain ⟨hlen, hall⟩ := h
  obtain ⟨c, cs, hcs⟩ : ∃ c cs, s.data = c :: cs := by
    match hs : s.data with
    | [] => rw [hs] at hlen; simp at hlen
    | c :: cs => exact ⟨c, cs, rfl⟩
  obtain ⟨v, hv, hvlt⟩ := parseHexList_some s.data 0 hall
  refine ⟨v, ?_, ?_⟩
  · unfold parseHex
    rw [hcs] at hv ⊢
    exact hv
  · have : (16 : Nat) ^ 16 = 2 ^ 64 := by norm_num
    rw [hlen] at hvlt
    omega

theorem calculateHammingDistance_spec (h1 h2 : String)
    (H1 : IsHex16 h1) (H2 : IsHex16 h2) :
    ∃ n1 n2, parseHex h1 = some n1 ∧ parseHex h2 = some n2 ∧
      n1 < 2 ^ 64 ∧ n2 < 2 ^ 64 ∧
      calculateHammingDistance h1 h2 = some (popCount64 (n1 ^^^ n2)) := by
  obtain ⟨n1, hp1, hlt1⟩ := parseHex_of_isHex16 h1 H1
  obtain ⟨n2, hp2, hlt2⟩ := parseHex_of_isHex16 h2 H2
  refine ⟨n1, n2, hp1, hp2, hlt1, hlt2, ?_⟩
  unfold calculateHammingDistance
  rw [hp1, hp2]
  show some (hammingLoop (bits64 n1) (bits64 n2)) = _
  rw [hammingLoop_popCount n1 n2 hlt1 hlt2]

/-! ## Lemmas: the rounding of the similarity percentage -/

theorem jsRound_eq_floor (q : ℚ) : jsRound q = ⌊q + 1 / 2⌋ := rfl

theorem jsRound_mono {q q' : ℚ} (h : q ≤ q') : jsRound q ≤ jsRound q' := by
  unfold jsRound
  exact Int.floor_mono (by linarith)

theorem similarity_facts (d : Nat) (hd : d ≤ 64) :
    0 ≤ jsRound ((1 - (d : ℚ) / 64) * 100) ∧
    jsRound ((1 - (d : ℚ) / 64) * 100) ≤ 100 ∧
    (jsRound ((1 - (d : ℚ) / 64) * 100) = 100 ↔ d = 0) ∧
    (jsRound ((1 - (d : ℚ) / 64) * 100) = 0 ↔ d = 64) := by
  have hdq : (d : ℚ) ≤ 64 := by exact_mod_cast hd
  have hdq0 : (0 : ℚ) ≤ (d : ℚ) := by positivity
  unfold jsRound
  have harg : (1 - (d : ℚ) / 64) * 100 + 1 / 2 = (1608 - 25 * (d : ℚ)) / 16 := by
    ring
  rw [harg]
  refine ⟨?_, ?_, ?_, ?_⟩
  · apply Int.le_floor.mpr
    push_cast
    rw [le_div_iff₀ (by norm_num : (0 : ℚ) < 16)]
    linarith
  · have : ⌊(1608 - 25 * (d : ℚ)) / 16⌋ < 101 := by
      apply Int.floor_lt.mpr
      push_cast
      rw [div_lt_iff₀ (by norm_num : (0 : ℚ) < 16)]
      linarith
    omega
  · constructor
    · intro h100
      have h1 : (100 : ℚ) ≤ (1608 - 25 * (d : ℚ)) / 16 := by
        have := Int.floor_le ((1608 - 25 * (d : ℚ)) / 16)
        rw [h100] at this
        calc (100 : ℚ) = ((100 : ℤ) : ℚ) := by norm_num
        _ ≤ _ := this
      rw [le_div_iff₀ (by norm_num : (0 : ℚ) < 16)] at h1
      have : (d : ℚ) < 1 := by linarith
      have : d < 1 := by exact_mod_cast this
      omega
    · intro h0
      subst h0
      norm_num
  · constructor
    · intro h0
      have h1 : (1608 - 25 * (d : ℚ)) / 16 < 1 := by
        have := Int.lt_floor_add_one ((1608 - 25 * (d : ℚ)) / 16)
        rw [h0] at this
        simpa using this
      rw [div_lt_iff₀ (by norm_num : (0 : ℚ) < 16)] at h1
      have : (63 : ℚ) < (d : ℚ) := by linarith
      have : 63 < d := by exact_mod_cast this
      omega
    · intro h64
      subst h64
      norm_num

/-! ## Claim C1 -/

/-- C1 counterexample: the hash string "0" does not decode to 64 bits
(it is a single hex digit), yet compareHashes succeeds on it instead of
failing: no InvalidHashError (or any validation) exists in the code. -/
theorem compareHashes_no_invalid_hash_error :
    ¬ IsHex16 "0" ∧ (compareHashes "0" "FFFFFFFFFFFFFFFF" 10).isSome = true := by
  constructor
  · decide
  · decide

/-- C1 (amended): compareHashes performs no validation whatsoever: it has
no notion of the generating algorithm and never checks hash length.  For
any two 16-hex-digit hash strings, of any algorithms, it succeeds and
returns the popcount of the bitwise XOR of the two decoded 64-bit values
as the Hamming distance. -/
theorem compareHashes_popcount (h1 h2 : String) (t : Nat)
    (H1 : IsHex16 h1) (H2 : IsHex16 h2) :
    ∃ n1 n2 r, parseHex h1 = some n1 ∧ parseHex h2 = some n2 ∧
      compareHashes h1 h2 t = some r ∧
      r.hammingDistance = popCount64 (n1 ^^^ n2) := by
  obtain ⟨n1, n2, hp1, hp2, _, _, hcd⟩ := calculateHammingDistance_spec h1 h2 H1 H2
  refine ⟨n1, n2,
    { hash1 := h1, hash2 := h2, hammingDistance := popCount64 (n1 ^^^ n2),
      similarity := jsRound ((1 - (popCount64 (n1 ^^^ n2) : ℚ) / 64) * 100),
      isMatch := decide (popCount64 (n1 ^^^ n2) ≤ t) }, hp1, hp2, ?_, rfl⟩
  unfold compareHashes
  rw [hcd]
  rfl

/-- C1 witness: the amended theorem evaluated at two concrete 16-digit
hashes (XOR is F0, popcount 4). -/
theorem compareHashes_popcount_witness :
    ∃ n1 n2 r, parseHex "00000000000000FF" = some n1 ∧
      parseHex "000000000000000F" = some n2 ∧
      compareHashes "00000000000000FF" "000000000000000F" 10 = some r ∧
      r.hammingDistance = popCount64 (n1 ^^^ n2) :=
  compareHashes_popcount "00000000000000FF" "000000000000000F" 10 (by decide) (by decide)

/-! ## Claim C4 -/

/-- C4: for any two 64-bit hashes the similarity returned by compareHashes
equals round((1 - distance/64) * 100), lies in [0, 100], is 100 exactly
for distance 0 and 0 exactly for distance 64; and the concrete comparison
of the all-zero with the all-one hash has distance 64, similarity 0 and
isMatch false for every threshold below 64. -/
theorem compareHashes_similarity_spec :
    (∀ (h1 h2 : String) (t : Nat), IsHex16 h1 → IsHex16 h2 →
      ∀ r, compareHashes h1 h2 t = some r →
        r.similarity = jsRound ((1 - (r.hammingDistance : ℚ) / 64) * 100) ∧
        r.hammingDistance ≤ 64 ∧
        0 ≤ r.similarity ∧ r.similarity ≤ 100 ∧
        (r.similarity = 100 ↔ r.hammingDistance = 0) ∧
        (r.similarity = 0 ↔ r.hammingDistance = 64)) ∧
    (∀ t : Nat, t < 64 →
      ∃ r, compareHashes "0000000000000000" "FFFFFFFFFFFFFFFF" t = some r ∧
        r.hammingDistance = 64 ∧ r.similarity = 0 ∧ r.isMatch = false) := by
  constructor
  · intro h1 h2 t H1 H2 r hr
    obtain ⟨n1, n2, _, _, _, _, hcd⟩ := calculateHammingDistance_spec h1 h2 H1 H2
    unfold compareHashes at hr
    rw [hcd] at hr
    simp only [Option.map_some', Option.some.injEq] at hr
    set d := popCount64 (n1 ^^^ n2) with hd
    have hd64 : d ≤ 64 := popCount64_le _
    obtain ⟨hs0, hs100, hiff100, hiff0⟩ := similarity_facts d hd64
    subst hr
    exact ⟨rfl, hd64, hs0, hs100, hiff100, hiff0⟩
  · intro t ht
    have hcd : calculateHammingDistance "0000000000000000" "FFFFFFFFFFFFFFFF" = some 64 := by
      decide
    refine ⟨{ hash1 := "0000000000000000", hash2 := "FFFFFFFFFFFFFFFF",
              hammingDistance := 64,
              similarity := jsRound ((1 - (64 : ℚ) / 64) * 100),
              isMatch := decide (64 ≤ t) }, ?_, rfl, ?_, ?_⟩
    · unfold compareHashes
      rw [hcd]
      rfl
    · show jsRound ((1 - (64 : ℚ) / 64) * 100) = 0
      unfold jsRound
      norm_num
    · show decide (64 ≤ t) = false
      exact decide_eq_false (by omega)

/-- C4 witness: the concrete clause of the theorem at threshold 10. -/
theorem compareHashes_similarity_spec_witness :
    ∃ r, compareHashes "0000000000000000" "FFFFFFFFFFFFFFFF" 10 = some r ∧
      r.hammingDistance = 64 ∧ r.similarity = 0 ∧ r.isMatch = false :=
  compareHashes_similarity_spec.2 10 (by omega)

/-! ## Claim C2 -/

/-- C2 counterexample: storing the same assetId twice leaves two records
with that id, and the twice-stored vault differs from the once-stored
vault: the vault store is a plain push, not an idempotent upsert. -/
theorem storeHashInVault_not_idempotent :
    (storeHashInVault "a" exVaultHashes0 exMetadata 0
        (storeHashInVault "a" exVaultHashes0 exMetadata 0 [])).countP
      (fun e => decide (e.id = "a")) = 2 ∧
    storeHashInVault "a" exVaultHashes0 exMetadata 0
        (storeHashInVault "a" exVaultHashes0 exMetadata 0 []) ≠
      storeHashInVault "a" exVaultHashes0 exMetadata 0 [] := by
  constructor
  · decide
  · decide

/-- C2 (amended): storeHashInVault appends a new record at the end of the
vault unconditionally, so storing the same assetId twice leaves two
records with that id rather than one. -/
theorem storeHashInVault_appends (assetId : String) (hashes : VaultHashes)
    (m : VaultMetadata) (now1 now2 : Nat) (vault : List VaultEntry) :
    storeHashInVault assetId hashes m now1 vault =
      vault ++ [{ id := assetId, hashes := hashes, metadata := m, storedAt := now1 }] ∧
    (storeHashInVault assetId hashes m now2
        (storeHashInVault assetId hashes m now1 vault)).countP
      (fun e => decide (e.id = assetId)) =
      vault.countP (fun e => decide (e.id = assetId)) + 2 := by
  constructor
  · rfl
  · unfold storeHashInVault
    simp [List.countP_append, List.countP_cons]

/-! ## Claim C3 -/

/-- C3 evaluation at the failing input: a uniform 8x8 image of the color
RGB (0, 0, 1) has all 64 grayscale values equal (each is the double
0.114), yet under the binary64 semantics of the source the 64-term sum
rounds below 64 times the pixel value, the mean falls strictly below
every pixel, every strict greater-than comparison is true, and the hash
is all ones, not the all-zero hash the specification requires.  A
uniform gray image (RGB 100, 100, 100) still produces the all-zero
hash. -/
theorem generateAverageHash_uniform_blue_all_ones :
    (generateAverageHash ((List.replicate 64 [0, 0, 1, 255]).flatten) 0).hash =
      "FFFFFFFFFFFFFFFF" ∧
    (generateAverageHash ((List.replicate 64 [100, 100, 100, 255]).flatten) 0).hash =
      "0000000000000000" := by
  constructor
  · decide
  · decide

/-! ## Claim C5 -/

theorem collectMatches_eq (targetHash : String) (alg : Algorithm) (thr : Nat)
    (vault : List VaultEntry) (Ht : IsHex16 targetHash)
    (Hv : ∀ e ∈ vault, IsHex16 (e.hashes.get alg).hash) :
    collectMatches targetHash alg thr vault =
      some (vault.filterMap (matchWithinThreshold targetHash alg thr)) := by
  induction vault with
  | nil => rfl
  | cons e rest ih =>
    have He : IsHex16 (e.hashes.get alg).hash := Hv e (List.mem_cons_self e rest)
    obtain ⟨n1, n2, _, _, _, _, hcd⟩ :=
      calculateHammingDistance_spec targetHash (e.hashes.get alg).hash Ht He
    have hch : compareHashes targetHash (e.hashes.get alg).hash thr =
        some { hash1 := targetHash, hash2 := (e.hashes.get alg).hash,
               hammingDistance := popCount64 (n1 ^^^ n2),
               similarity := jsRound ((1 - (popCount64 (n1 ^^^ n2) : ℚ) / 64) * 100),
               isMatch := decide (popCount64 (n1 ^^^ n2) ≤ thr) } := by
      unfold compareHashes
      rw [hcd]
      rfl
    have hrest := ih (fun x hx => Hv x (List.mem_cons_of_mem e hx))
    unfold collectMatches
    rw [hch, hrest, List.filterMap_cons]
    unfold matchWithinThreshold
    rw [hcd]
    by_cases hdthr : popCount64 (n1 ^^^ n2) ≤ thr
    · simp [hdthr]
    · simp [hdthr]

theorem vaultMatchLE_trans (a b c : VaultMatch)
    (h1 : vaultMatchLE a b = true) (h2 : vaultMatchLE b c = true) :
    vaultMatchLE a c = true := by
  unfold vaultMatchLE at h1 h2 ⊢
  simp only [decide_eq_true_eq] at h1 h2 ⊢
  omega

theorem vaultMatchLE_total (a b : VaultMatch) :
    (vaultMatchLE a b || vaultMatchLE b a) = true := by
  unfold vaultMatchLE
  simp only [Bool.or_eq_true, decide_eq_true_eq]
  omega

/-- C5: for every vault, target hash and threshold (hashes being 16 hex
digits), the vault search returns exactly the entries whose stored hash
for the requested algorithm is within Hamming distance threshold of the
target (as a permutation of that filter, in particular the same set of
rows), sorted non-increasing by similarity; and on the empty vault it
returns [] outright. -/
theorem searchVaultForMatches_spec :
    (∀ (targetHash : String) (alg : Algorithm) (thr : Nat) (vault : List VaultEntry),
      IsHex16 targetHash → (∀ e ∈ vault, IsHex16 (e.hashes.get alg).hash) →
        (searchVaultForMatches targetHash alg thr vault).Perm
          (vault.filterMap (matchWithinThreshold targetHash alg thr)) ∧
        (searchVaultForMatches targetHash alg thr vault).Pairwise
          (fun a b => b.similarity ≤ a.similarity)) ∧
    (∀ (targetHash : String) (alg : Algorithm) (thr : Nat),
      searchVaultForMatches targetHash alg thr [] = []) := by
  constructor
  · intro t alg thr vault Ht Hv
    have hc := collectMatches_eq t alg thr vault Ht Hv
    unfold searchVaultForMatches
    rw [hc]
    constructor
    · exact List.mergeSort_perm _ vaultMatchLE
    · have hs := List.sorted_mergeSort
        (fun a b c => vaultMatchLE_trans a b c) vaultMatchLE_total
        (vault.filterMap (matchWithinThreshold t alg thr))
      refine hs.imp ?_
      intro a b h
      simpa [vaultMatchLE] using h
  · intro t alg thr
    show (match collectMatches t alg thr [] with
      | none => []
      | some ms => ms.mergeSort vaultMatchLE) = []
    show ([] : List VaultMatch).mergeSort vaultMatchLE = []
    exact List.mergeSort_nil

/-- C5 witness: the spec applied to a concrete two-entry vault and the
all-zero target. -/
theorem searchVaultForMatches_spec_witness :
    (searchVaultForMatches "0000000000000000" .pHash 10 [exEntry1, exEntry2]).Perm
      ([exEntry1, exEntry2].filterMap (matchWithinThreshold "0000000000000000" .pHash 10)) ∧
    (searchVaultForMatches "0000000000000000" .pHash 10 [exEntry1, exEntry2]).Pairwise
      (fun a b => b.similarity ≤ a.similarity) :=
  searchVaultForMatches_spec.1 "0000000000000000" .pHash 10 [exEntry1, exEntry2]
    (by decide) (by decide)

/-! ## Claim C9 -/

/-- C9: saveAlert inserts at the head and truncates to the first 100
entries, dropping the oldest beyond capacity; on a store holding exactly
100 alerts, exactly the single oldest entry is evicted. -/
theorem saveAlert_spec (alert : ContentAlert) (alerts : List ContentAlert) :
    saveAlert alert alerts = (alert :: alerts).take 100 ∧
    (saveAlert alert alerts).head? = some alert ∧
    (saveAlert alert alerts).length = min (alerts.length + 1) 100 ∧
    (alerts.length = 100 → saveAlert alert alerts = alert :: alerts.dropLast) := by
  have htake : (alert :: alerts).take 100 = alert :: alerts.take 99 := by
    show (alert :: alerts).take (99 + 1) = _
    rw [List.take_succ_cons]
  refine ⟨rfl, ?_, ?_, ?_⟩
  · show ((alert :: alerts).take 100).head? = some alert
    rw [htake]
    rfl
  · show ((alert :: alerts).take 100).length = min (alerts.length + 1) 100
    rw [List.length_take]
    simp [Nat.min_comm]
  · intro h100
    show (alert :: alerts).take 100 = alert :: alerts.dropLast
    rw [htake, List.dropLast_eq_take, h100]

/-- C9 witness: the eviction clause on a store of exactly 100 alerts. -/
theorem saveAlert_spec_witness :
    (List.replicate 100 exAlert).length = 100 ∧
    saveAlert exAlert (List.replicate 100 exAlert) =
      exAlert :: (List.replicate 100 exAlert).dropLast :=
  ⟨by simp, (saveAlert_spec exAlert (List.replicate 100 exAlert)).2.2.2 (by simp)⟩

/-! ## Claim C10 -/

/-- C10: marking an alert read either leaves the store entirely unchanged
(no alert carries the id), or rewrites exactly the first alert carrying
the id with its read flag set, leaving every other alert, all other
fields and the order untouched. -/
theorem markAlertRead_frame (aid : String) (alerts : List ContentAlert) :
    ((∀ a ∈ alerts, a.id ≠ aid) ∧ markAlertRead aid alerts = alerts) ∨
    (∃ pre a post, alerts = pre ++ a :: post ∧ (∀ b ∈ pre, b.id ≠ aid) ∧ a.id = aid ∧
      markAlertRead aid alerts = pre ++ { a with read := true } :: post) := by
  induction alerts with
  | nil => exact Or.inl ⟨by simp, rfl⟩
  | cons x rest ih =>
    by_cases hx : x.id = aid
    · right
      exact ⟨[], x, rest, rfl, by simp, hx, by simp [markAlertRead, hx]⟩
    · rcases ih with ⟨hall, heq⟩ | ⟨pre, a, post, hsplit, hpre, ha, heq⟩
      · left
        refine ⟨?_, ?_⟩
        · intro b hb
          rcases List.mem_cons.mp hb with rfl | hb'
          · exact hx
          · exact hall b hb'
        · simp [markAlertRead, hx, heq]
      · right
        refine ⟨x :: pre, a, post, by rw [List.cons_append, ← hsplit], ?_, ha, ?_⟩
        · intro b hb
          rcases List.mem_cons.mp hb with rfl | hb'
          · exact hx
          · exact hpre b hb'
        · simp [markAlertRead, hx, heq]

/-- C10 witness: the frame property applied to a concrete single-alert
store whose alert carries the requested id. -/
theorem markAlertRead_frame_witness :
    ((∀ a ∈ [exAlert], a.id ≠ "alert_x") ∧ markAlertRead "alert_x" [exAlert] = [exAlert]) ∨
    (∃ pre a post, [exAlert] = pre ++ a :: post ∧ (∀ b ∈ pre, b.id ≠ "alert_x") ∧
      a.id = "alert_x" ∧
      markAlertRead "alert_x" [exAlert] = pre ++ { a with read := true } :: post) :=
  markAlertRead_frame "alert_x" [exAlert]

/-! ## Lemmas: the rounded progress percentage -/

theorem jsRound_nat_div (k n : Nat) :
    jsRound ((k : ℚ) / (n : ℚ) * 100) = (((200 * k + n) / (2 * n) : Nat) : ℤ) := by
  by_cases hn : n = 0
  · subst hn
    unfold jsRound
    norm_num
  · have hnq : (n : ℚ) ≠ 0 := Nat.cast_ne_zero.mpr hn
    have harg : (k : ℚ) / (n : ℚ) * 100 + 1 / 2 =
        ((200 * k + n : Nat) : ℚ) / ((2 * n : Nat) : ℚ) := by
      push_cast
      field_simp
      ring
    unfold jsRound
    rw [harg, Rat.floor_natCast_div_natCast]
    norm_cast

theorem jsRound_div_mono (n : Nat) {k1 k2 : Nat} (h : k1 ≤ k2) :
    jsRound ((k1 : ℚ) / (n : ℚ) * 100) ≤ jsRound ((k2 : ℚ) / (n : ℚ) * 100) := by
  apply jsRound_mono
  by_cases hn : n = 0
  · subst hn
    norm_num
  · have hnq : (0 : ℚ) < (n : ℚ) := by
      exact_mod_cast Nat.pos_of_ne_zero hn
    have hk : (k1 : ℚ) ≤ (k2 : ℚ) := by exact_mod_cast h
    gcongr

theorem jsRound_div_le_100 (k n : Nat) (h : k ≤ n) :
    jsRound ((k : ℚ) / (n : ℚ) * 100) ≤ 100 := by
  by_cases hn : n = 0
  · subst hn
    unfold jsRound
    norm_num
  · have hnq : (0 : ℚ) < (n : ℚ) := by
      exact_mod_cast Nat.pos_of_ne_zero hn
    have hk : (k : ℚ) ≤ (n : ℚ) := by exact_mod_cast h
    have harg : (k : ℚ) / (n : ℚ) * 100 ≤ 100 := by
      rw [div_mul_eq_mul_div, div_le_iff₀ hnq]
      linarith
    calc jsRound ((k : ℚ) / (n : ℚ) * 100) ≤ jsRound 100 := jsRound_mono harg
    _ = 100 := by unfold jsRound; norm_num

theorem jsRound_zero_div (n : Nat) : jsRound (((0 : Nat) : ℚ) / (n : ℚ) * 100) = 0 := by
  unfold jsRound
  norm_num

/-! ## Lemmas: scan loop invariants -/

/-! ## Lemmas: the binary64 rounding model is correctly rounding -/

theorem bitLen_zero : bitLen 0 = 0 := rfl

theorem bitLen_succ_div2 (n : Nat) (h : n ≠ 0) : bitLen n = bitLen (n / 2) + 1 := by
  unfold bitLen
  rw [binAux_eq n, if_neg h]
  rfl

theorem lt_two_pow_bitLen (n : Nat) : n < 2 ^ bitLen n := by
  induction n using Nat.strong_induction_on with
  | _ n ih =>
    by_cases h : n = 0
    · subst h; simp [bitLen_zero]
    · rw [bitLen_succ_div2 n h]
      have h2 := ih (n / 2) (by omega)
      rw [pow_succ]
      omega

theorem bitLen_pos (n : Nat) (h : n ≠ 0) : 1 ≤ bitLen n := by
  rw [bitLen_succ_div2 n h]
  omega

theorem two_pow_bitLen_le (n : Nat) (h : n ≠ 0) : 2 ^ (bitLen n - 1) ≤ n := by
  induction n using Nat.strong_induction_on with
  | _ n ih =>
    by_cases h2 : n / 2 = 0
    · have hn1 : n = 1 := by omega
      subst hn1
      decide
    · rw [bitLen_succ_div2 n h]
      have h3 := ih (n / 2) (by omega) h2
      have h4 : 1 ≤ bitLen (n / 2) := bitLen_pos (n / 2) h2
      have h6 : bitLen (n / 2) + 1 - 1 = bitLen (n / 2) - 1 + 1 := by omega
      rw [h6, pow_succ]
      omega

theorem bitLen_gt (k n : Nat) (h : 2 ^ k ≤ n) : k < bitLen n := by
  by_contra h2
  have h3 : bitLen n ≤ k := by omega
  have h4 := lt_two_pow_bitLen n
  have h5 : (2:ℕ) ^ bitLen n ≤ 2 ^ k := Nat.pow_le_pow_right (by omega) h3
  omega

theorem bitLen_two_mul (n : Nat) (h : n ≠ 0) : bitLen (2 * n) = bitLen n + 1 := by
  rw [bitLen_succ_div2 (2 * n) (by omega), Nat.mul_div_cancel_left n (by norm_num)]



/-- If m is q or q+1 and within half a grid cell of x, it is a nearest
grid multiple of x. -/
theorem grid_nearest (x : ℚ) (k : ℕ) (hk : 1 ≤ k) (q m : ℕ)
    (hq0 : (q : ℚ) * 2 ^ k ≤ x) (hq1 : x ≤ ((q : ℚ) + 1) * 2 ^ k)
    (hm : m = q ∨ m = q + 1)
    (hlow : m = q → x - (q : ℚ) * 2 ^ k ≤ 2 ^ (k - 1))
    (hhigh : m = q + 1 → ((q : ℚ) + 1) * 2 ^ k - x ≤ 2 ^ (k - 1)) :
    |x - (m : ℚ) * 2 ^ k| ≤ 2 ^ (k - 1) ∧
    ∀ J : ℤ, |x - (m : ℚ) * 2 ^ k| ≤ |x - (J : ℚ) * 2 ^ k| := by
  have hdouble : (2 : ℚ) ^ k = 2 * 2 ^ (k - 1) := by
    rw [← pow_succ']
    congr 1
    omega
  have hpow_pos : (0 : ℚ) < 2 ^ k := by positivity
  constructor
  · rcases hm with hm | hm
    · subst hm
      rw [abs_of_nonneg (by linarith)]
      exact hlow rfl
    · subst hm
      rw [abs_of_nonpos (by push_cast; linarith)]
      push_cast
      have := hhigh rfl
      linarith
  · intro J
    have hJcase : (J : ℚ) ≤ (q : ℚ) ∨ ((q : ℚ) + 1) ≤ (J : ℚ) := by
      rcases le_or_lt (J : ℚ) (q : ℚ) with h | h
      · exact Or.inl h
      · right
        have : (q : ℤ) < J := by exact_mod_cast h
        have : (q : ℤ) + 1 ≤ J := by omega
        exact_mod_cast this
    rcases hJcase with hJ | hJ
    · have hJd : (q : ℚ) * 2 ^ k ≤ x → x - (J : ℚ) * 2 ^ k ≥ x - (q : ℚ) * 2 ^ k := by
        intro _
        have := mul_le_mul_of_nonneg_right hJ (le_of_lt hpow_pos)
        linarith
      have h1 : |x - (J : ℚ) * 2 ^ k| ≥ x - (q : ℚ) * 2 ^ k := by
        have h2 := hJd hq0
        calc x - (q : ℚ) * 2 ^ k ≤ x - (J : ℚ) * 2 ^ k := by linarith
          _ ≤ |x - (J : ℚ) * 2 ^ k| := le_abs_self _
      rcases hm with hm | hm
      · subst hm
        rw [abs_of_nonneg (by linarith)]
        linarith
      · subst hm
        rw [abs_of_nonpos (by push_cast; linarith)]
        have h3 := hhigh rfl
        push_cast
        linarith
    · have h1 : |x - (J : ℚ) * 2 ^ k| ≥ ((q : ℚ) + 1) * 2 ^ k - x := by
        have h2 := mul_le_mul_of_nonneg_right hJ (le_of_lt hpow_pos)
        calc ((q : ℚ) + 1) * 2 ^ k - x ≤ (J : ℚ) * 2 ^ k - x := by linarith
          _ ≤ |(J : ℚ) * 2 ^ k - x| := le_abs_self _
          _ = |x - (J : ℚ) * 2 ^ k| := abs_sub_comm _ _
      rcases hm with hm | hm
      · subst hm
        rw [abs_of_nonneg (by linarith)]
        have h3 := hlow rfl
        linarith
      · subst hm
        rw [abs_of_nonpos (by push_cast; linarith)]
        push_cast
        linarith

/-- The rounded mantissa flQM Q R is a nearest 53-bit grid multiple of
any x in [Q, Q+1) whose fractional part vanishes iff the sticky
remainder R does. -/
theorem flQM_grid (Q R : ℕ) (h53 : 53 < bitLen Q) (x : ℚ)
    (hx0 : (Q : ℚ) ≤ x) (hx1 : x < (Q : ℚ) + 1) (hR0 : R = 0 → x = (Q : ℚ)) :
    2 ^ 52 ≤ flQM Q R ∧ flQM Q R ≤ 2 ^ 53 ∧
    |x - (flQM Q R : ℚ) * 2 ^ (bitLen Q - 53)| ≤ 2 ^ (bitLen Q - 53 - 1) ∧
    ∀ J : ℤ, |x - (flQM Q R : ℚ) * 2 ^ (bitLen Q - 53)| ≤
      |x - (J : ℚ) * 2 ^ (bitLen Q - 53)| := by
  have hQ0 : Q ≠ 0 := by
    intro h
    rw [h, bitLen_zero] at h53
    omega
  set k := bitLen Q - 53 with hkdef
  set high := Q / 2 ^ k with hhighdef
  set rem := Q % 2 ^ k with hremdef
  have hm : flQM Q R = if rem < 2 ^ (k - 1) then high
      else if 2 ^ (k - 1) < rem then high + 1
      else if R ≠ 0 then high + 1
      else if high % 2 = 0 then high else high + 1 := rfl
  have hk1 : 1 ≤ k := by omega
  have hQsplit : 2 ^ k * high + rem = Q := Nat.div_add_mod Q (2 ^ k)
  have hremlt : rem < 2 ^ k := Nat.mod_lt Q (by positivity)
  have hhalf2 : 2 ^ (k - 1) * 2 = 2 ^ k := by
    rw [← pow_succ]
    congr 1
    omega
  have hbit : bitLen Q = 53 + k := by omega
  have hhi : high < 2 ^ 53 := by
    rw [hhighdef]
    rw [Nat.div_lt_iff_lt_mul (by positivity)]
    calc Q < 2 ^ bitLen Q := lt_two_pow_bitLen Q
      _ = 2 ^ 53 * 2 ^ k := by rw [hbit, pow_add]
  have hlo : 2 ^ 52 ≤ high := by
    rw [hhighdef]
    rw [Nat.le_div_iff_mul_le (by positivity)]
    calc 2 ^ 52 * 2 ^ k = 2 ^ (52 + k) := by rw [pow_add]
      _ = 2 ^ (bitLen Q - 1) := by congr 1; omega
      _ ≤ Q := two_pow_bitLen_le Q hQ0
  have hcast : (high : ℚ) * 2 ^ k + (rem : ℚ) = (Q : ℚ) := by
    have := congrArg (fun t : ℕ => (t : ℚ)) hQsplit
    push_cast at this
    linarith
  have hor : flQM Q R = high ∨ flQM Q R = high + 1 := by
    rw [hm]
    split_ifs <;> simp
  have hbounds : 2 ^ 52 ≤ flQM Q R ∧ flQM Q R ≤ 2 ^ 53 := by
    rcases hor with h | h <;> rw [h] <;> omega
  have hremcast : (rem : ℚ) < 2 ^ k := by
    have : ((rem : ℕ) : ℚ) < ((2 ^ k : ℕ) : ℚ) := by exact_mod_cast hremlt
    push_cast at this
    linarith
  have hhalfcast : ((2 ^ (k - 1) : ℕ) : ℚ) = (2 : ℚ) ^ (k - 1) := by push_cast; ring
  have hdouble : (2 : ℚ) ^ (k - 1) * 2 = (2 : ℚ) ^ k := by
    have := congrArg (fun t : ℕ => (t : ℚ)) hhalf2
    push_cast at this
    linarith
  have hlow : flQM Q R = high → x - (high : ℚ) * 2 ^ k ≤ 2 ^ (k - 1) := by
    intro hEq
    rw [hm] at hEq
    split_ifs at hEq with h1 h2 h3 h4
    · -- rem < half
      have : (rem : ℚ) < 2 ^ (k - 1) := by
        have : ((rem : ℕ) : ℚ) < ((2 ^ (k - 1) : ℕ) : ℚ) := by exact_mod_cast h1
        rw [hhalfcast] at this
        linarith
      have hx1' : x < (high : ℚ) * 2 ^ k + rem + 1 := by linarith
      have hrem1 : (rem : ℚ) + 1 ≤ 2 ^ (k - 1) := by
        have h4 : rem + 1 ≤ 2 ^ (k - 1) := h1
        have h5 : ((rem + 1 : ℕ) : ℚ) ≤ ((2 ^ (k - 1) : ℕ) : ℚ) := by exact_mod_cast h4
        rw [hhalfcast] at h5
        push_cast at h5
        linarith
      linarith
    · omega
    · omega
    · -- tie, R = 0, even
      have hR : R = 0 := not_not.mp h3
      have hrem : rem = 2 ^ (k - 1) := by omega
      have hx : x = (Q : ℚ) := hR0 hR
      rw [hx, ← hcast, hrem, hhalfcast]
      linarith
    · omega
  have hhigh : flQM Q R = high + 1 → ((high : ℚ) + 1) * 2 ^ k - x ≤ 2 ^ (k - 1) := by
    intro hEq
    rw [hm] at hEq
    split_ifs at hEq with h1 h2 h3 h4
    · omega
    · -- half < rem
      have h5 : (2 ^ (k - 1) : ℕ) + 1 ≤ rem := h2
      have h6 : ((2 ^ (k - 1) + 1 : ℕ) : ℚ) ≤ ((rem : ℕ) : ℚ) := by exact_mod_cast h5
      push_cast at h6
      have hexp : ((high : ℚ) + 1) * 2 ^ k = (high : ℚ) * 2 ^ k + 2 ^ k := by ring
      linarith [hcast, hx0, hdouble]
    · -- tie, R ≠ 0
      have hrem : rem = 2 ^ (k - 1) := by omega
      have h6 : ((rem : ℕ) : ℚ) = 2 ^ (k - 1) := by
        rw [hrem, hhalfcast]
      have hexp : ((high : ℚ) + 1) * 2 ^ k = (high : ℚ) * 2 ^ k + 2 ^ k := by ring
      linarith [hcast, hx0, hdouble]
    · omega
    · -- tie, R = 0, odd
      have hrem : rem = 2 ^ (k - 1) := by omega
      have hR : R = 0 := not_not.mp h3
      have hx : x = (Q : ℚ) := hR0 hR
      have h6 : ((rem : ℕ) : ℚ) = 2 ^ (k - 1) := by
        rw [hrem, hhalfcast]
      have hexp : ((high : ℚ) + 1) * 2 ^ k = (high : ℚ) * 2 ^ k + 2 ^ k := by ring
      rw [hx]
      linarith [hcast, hdouble]
  have hq0 : (high : ℚ) * 2 ^ k ≤ x := by
    have : (0 : ℚ) ≤ (rem : ℚ) := by positivity
    linarith
  have hq1 : x ≤ ((high : ℚ) + 1) * 2 ^ k := by
    have hrem1 : (rem : ℚ) + 1 ≤ 2 ^ k := by
      have h5 : ((rem + 1 : ℕ) : ℚ) ≤ ((2 ^ k : ℕ) : ℚ) := by exact_mod_cast hremlt
      push_cast at h5
      linarith
    have hexp : ((high : ℚ) + 1) * 2 ^ k = (high : ℚ) * 2 ^ k + 2 ^ k := by ring
    linarith [hcast]
  obtain ⟨hA, hB⟩ := grid_nearest x k hk1 high (flQM Q R) hq0 hq1 hor hlow hhigh
  exact ⟨hbounds.1, hbounds.2, hA, hB⟩

/-- A nearest grid multiple at the 53-bit granularity of x is nearest
among all values j * 2^f with j ≤ 2^53: any representable closer than
half a grid cell is itself a grid multiple. -/
theorem nearest_grid_to_repr (x u : ℚ) (L k : ℕ) (hk : k = L - 53) (hL : 53 < L)
    (hxlo : (2 : ℚ) ^ (L - 1) ≤ x)
    (hhalf : |x - u| ≤ (2 : ℚ) ^ (k - 1))
    (hgrid : ∀ J : ℤ, |x - u| ≤ |x - (J : ℚ) * 2 ^ k|)
    (j : ℕ) (f : ℤ) (hj : j ≤ 2 ^ 53) :
    |x - u| ≤ |x - (j : ℚ) * (2 : ℚ) ^ f| := by
  rcases le_or_lt ((2 : ℚ) ^ (k - 1)) (|x - (j : ℚ) * (2 : ℚ) ^ f|) with hcase | hcase
  · exact hhalf.trans hcase
  · set w : ℚ := (j : ℚ) * (2 : ℚ) ^ f with hw
    have hxw : x - w ≤ |x - w| := le_abs_self _
    have hw_gt : (2 : ℚ) ^ (L - 1) - (2 : ℚ) ^ (k - 1) < w := by linarith
    have hLk : L - 1 = (k - 1) + 53 := by omega
    have hsplit : (2 : ℚ) ^ (L - 1) = (2 : ℚ) ^ (k - 1) * 2 ^ 53 := by rw [hLk, pow_add]
    have hw_gt2 : (2 : ℚ) ^ (k - 1) * (2 ^ 53 - 1) < w := by
      have hr : (2 : ℚ) ^ (k - 1) * ((2 : ℚ) ^ 53 - 1) =
          (2 : ℚ) ^ (k - 1) * 2 ^ 53 - 2 ^ (k - 1) := by ring
      rw [hr, ← hsplit]
      linarith
    rcases le_or_lt (k : ℤ) f with hf | hf
    · have hfk : ((f - (k : ℤ)).toNat : ℤ) = f - (k : ℤ) := Int.toNat_of_nonneg (by omega)
      have hwJ : w = ((j * 2 ^ (f - (k : ℤ)).toNat : ℕ) : ℚ) * 2 ^ k := by
        rw [hw]
        push_cast
        rw [mul_assoc, ← zpow_natCast (2 : ℚ) ((f - (k : ℤ)).toNat), hfk,
            ← zpow_natCast (2 : ℚ) k, ← zpow_add₀ (by norm_num : (2 : ℚ) ≠ 0)]
        congr 2
        ring
      have hg := hgrid ((j * 2 ^ (f - (k : ℤ)).toNat : ℕ) : ℤ)
      rw [hwJ]
      exact_mod_cast hg
    · have hj2 : j = 2 ^ 53 := by
        by_contra hj3
        have hjle : j ≤ 2 ^ 53 - 1 := by omega
        have hjlt : (j : ℚ) ≤ (2 : ℚ) ^ 53 - 1 := by
          have h5 : ((j : ℕ) : ℚ) ≤ ((2 ^ 53 - 1 : ℕ) : ℚ) := by exact_mod_cast hjle
          push_cast at h5
          linarith
        have hfk1 : f ≤ ((k - 1 : ℕ) : ℤ) := by omega
        have hzle : (2 : ℚ) ^ f ≤ (2 : ℚ) ^ ((k - 1 : ℕ) : ℤ) :=
          zpow_le_zpow_right₀ one_le_two hfk1
        have hzle2 : (2 : ℚ) ^ ((k - 1 : ℕ) : ℤ) = (2 : ℚ) ^ (k - 1 : ℕ) :=
          zpow_natCast 2 (k - 1)
        have h2f : (0 : ℚ) < (2 : ℚ) ^ f := zpow_pos (by norm_num) f
        have hwle : w ≤ ((2 : ℚ) ^ 53 - 1) * (2 : ℚ) ^ (k - 1 : ℕ) := by
          rw [hw]
          calc (j : ℚ) * (2 : ℚ) ^ f ≤ ((2 : ℚ) ^ 53 - 1) * (2 : ℚ) ^ f :=
                mul_le_mul_of_nonneg_right hjlt (le_of_lt h2f)
            _ ≤ ((2 : ℚ) ^ 53 - 1) * (2 : ℚ) ^ (k - 1 : ℕ) := by
                apply mul_le_mul_of_nonneg_left _ (by norm_num)
                rw [← hzle2]
                exact hzle
        have hcomm : ((2 : ℚ) ^ 53 - 1) * (2 : ℚ) ^ (k - 1 : ℕ) =
            (2 : ℚ) ^ (k - 1) * (2 ^ 53 - 1) := by ring
        rw [hcomm] at hwle
        linarith
    -- j = 2^53: w = 2^(53 + f), and 53 + f ≥ k
      have hwpow : w = (2 : ℚ) ^ ((53 : ℤ) + f) := by
        rw [hw, hj2, zpow_add₀ (by norm_num : (2 : ℚ) ≠ 0)]
        norm_num
      have hfge : (k : ℤ) ≤ 53 + f := by
        have h51 : (2 : ℚ) ^ ((k : ℤ) + 51) < (2 : ℚ) ^ ((53 : ℤ) + f) := by
          rw [← hwpow]
          calc (2 : ℚ) ^ ((k : ℤ) + 51) = (2 : ℚ) ^ (k - 1) * 2 ^ 52 := by
                rw [zpow_add₀ (by norm_num : (2 : ℚ) ≠ 0)]
                rw [show ((k : ℤ)) = (((k - 1 : ℕ) : ℕ) : ℤ) + 1 by omega]
                rw [zpow_add₀ (by norm_num : (2 : ℚ) ≠ 0), zpow_natCast]
                norm_num
                ring
            _ ≤ (2 : ℚ) ^ (k - 1) * (2 ^ 53 - 1) := by
                apply mul_le_mul_of_nonneg_left (by norm_num) (by positivity)
            _ < w := hw_gt2
        have := (zpow_lt_zpow_iff_right₀ (one_lt_two (α := ℚ))).mp h51
        omega
      have hfk : (((53 : ℤ) + f - (k : ℤ)).toNat : ℤ) = 53 + f - (k : ℤ) :=
        Int.toNat_of_nonneg (by omega)
      have hwJ : w = ((2 ^ ((53 : ℤ) + f - (k : ℤ)).toNat : ℕ) : ℚ) * 2 ^ k := by
        rw [hwpow]
        push_cast
        rw [← zpow_natCast (2 : ℚ) (((53 : ℤ) + f - (k : ℤ)).toNat), hfk,
            ← zpow_natCast (2 : ℚ) k, ← zpow_add₀ (by norm_num : (2 : ℚ) ≠ 0)]
        congr 1
        ring
      have hg := hgrid ((2 ^ ((53 : ℤ) + f - (k : ℤ)).toNat : ℕ) : ℤ)
      rw [hwJ]
      exact_mod_cast hg

theorem flDy_eq_zero (e : ℤ) : flDy ⟨(0 : ℤ), e⟩ = ⟨0, 0⟩ := rfl

theorem flDy_eq_small (n : ℕ) (e : ℤ) (hn : n ≠ 0) (h : bitLen n ≤ 53) :
    flDy ⟨(n : ℤ), e⟩ = ⟨(n : ℤ), e⟩ := by
  simp only [flDy, Int.natAbs_ofNat]
  rw [if_neg (show ¬((n : ℤ) = 0) by exact_mod_cast hn), if_pos h]

theorem flDy_eq_big (n : ℕ) (e : ℤ) (h : 53 < bitLen n) :
    flDy ⟨(n : ℤ), e⟩ =
      ⟨((flQM n 0 : ℕ) : ℤ), e + ((bitLen n - 53 : ℕ) : ℤ)⟩ := by
  have hn : n ≠ 0 := by
    intro h0
    rw [h0, bitLen_zero] at h
    omega
  simp only [flDy, flQM, Int.natAbs_ofNat]
  rw [if_neg (show ¬((n : ℤ) = 0) by exact_mod_cast hn), if_neg (by omega),
      if_neg (Int.not_lt.mpr (Int.natCast_nonneg n)),
      if_neg (show ¬((0 : ℕ) ≠ 0) by omega)]

theorem flQ_eq (n d : ℕ) (hn : n ≠ 0) (hd : d ≠ 0) :
    flQ n d =
      ⟨((flQM (n * 2 ^ (120 + bitLen d) / d) (n * 2 ^ (120 + bitLen d) % d) : ℕ) : ℤ),
        ((bitLen (n * 2 ^ (120 + bitLen d) / d) - 53 : ℕ) : ℤ) -
          ((120 + bitLen d : ℕ) : ℤ)⟩ := by
  simp only [flQ, flQM]
  rw [if_neg (by simp [hn, hd])]

theorem flDy_nearest (n : ℕ) (e : ℤ) (j : ℕ) (f : ℤ) (hj : j ≤ 2 ^ 53) :
    |Dy.val ⟨(n : ℤ), e⟩ - Dy.val (flDy ⟨(n : ℤ), e⟩)| ≤
      |Dy.val ⟨(n : ℤ), e⟩ - (j : ℚ) * (2 : ℚ) ^ f| := by
  by_cases hn : n = 0
  · subst hn
    rw [show ((0 : ℕ) : ℤ) = (0 : ℤ) by norm_num, flDy_eq_zero]
    simp [Dy.val]
  by_cases hL : bitLen n ≤ 53
  · rw [flDy_eq_small n e hn hL]
    simp
  · push_neg at hL
    rw [flDy_eq_big n e hL]
    set k := bitLen n - 53 with hk
    have ht : (0 : ℚ) < (2 : ℚ) ^ e := zpow_pos (by norm_num) e
    have habs : ∀ a b : ℚ, |a * (2 : ℚ) ^ e - b * (2 : ℚ) ^ e| = |a - b| * (2 : ℚ) ^ e := by
      intro a b
      rw [← sub_mul, abs_mul, abs_of_pos ht]
    obtain ⟨hg1, hg2, hg3, hg4⟩ :=
      flQM_grid n 0 hL (n : ℚ) (le_refl _) (by linarith) (fun _ => rfl)
    have hval1 : Dy.val ⟨(n : ℤ), e⟩ = (n : ℚ) * (2 : ℚ) ^ e := by
      simp [Dy.val]
    have hval2 : Dy.val ⟨((flQM n 0 : ℕ) : ℤ), e + ((k : ℕ) : ℤ)⟩ =
        ((flQM n 0 : ℚ) * (2 : ℚ) ^ (k : ℕ)) * (2 : ℚ) ^ e := by
      simp only [Dy.val]
      rw [zpow_add₀ (by norm_num : (2 : ℚ) ≠ 0), zpow_natCast]
      push_cast
      ring
    have hval3 : (j : ℚ) * (2 : ℚ) ^ f = ((j : ℚ) * (2 : ℚ) ^ (f - e)) * (2 : ℚ) ^ e := by
      rw [mul_assoc, ← zpow_add₀ (by norm_num : (2 : ℚ) ≠ 0)]
      congr 2
      ring
    rw [hval1, hval2, hval3, habs, habs]
    apply mul_le_mul_of_nonneg_right _ (le_of_lt ht)
    have hxlo : (2 : ℚ) ^ (bitLen n - 1) ≤ (n : ℚ) := by
      have h5 : ((2 ^ (bitLen n - 1) : ℕ) : ℚ) ≤ ((n : ℕ) : ℚ) := by
        exact_mod_cast two_pow_bitLen_le n hn
      push_cast at h5
      linarith
    exact nearest_grid_to_repr (n : ℚ) ((flQM n 0 : ℚ) * 2 ^ (k : ℕ)) (bitLen n) k hk hL
      hxlo hg3 hg4 j (f - e) hj

theorem flQ_nearest (n d : ℕ) (hn : n ≠ 0) (hd : d ≠ 0) (j : ℕ) (f : ℤ) (hj : j ≤ 2 ^ 53) :
    |(n : ℚ) / (d : ℚ) - Dy.val (flQ n d)| ≤
      |(n : ℚ) / (d : ℚ) - (j : ℚ) * (2 : ℚ) ^ f| := by
  set s := 120 + bitLen d with hs
  set a := n * 2 ^ s with ha
  set q := a / d with hq
  set r := a % d with hr
  have hdpos : 0 < d := Nat.pos_of_ne_zero hd
  have hq121 : 121 ≤ bitLen q := by
    have h1 : 2 ^ s ≤ a := by
      rw [ha]
      exact Nat.le_mul_of_pos_left _ (Nat.pos_of_ne_zero hn)
    have h2 : 2 ^ 120 * d ≤ 2 ^ s := by
      rw [hs, pow_add]
      exact Nat.mul_le_mul_left _ (le_of_lt (lt_two_pow_bitLen d))
    have h3 : 2 ^ 120 ≤ q := by
      rw [hq]
      calc 2 ^ 120 = 2 ^ 120 * d / d := by rw [Nat.mul_div_cancel _ hdpos]
        _ ≤ 2 ^ s / d := Nat.div_le_div_right h2
        _ ≤ a / d := Nat.div_le_div_right h1
    have := bitLen_gt 120 q h3
    omega
  have h53q : 53 < bitLen q := by omega
  set x' := (a : ℚ) / (d : ℚ) with hx'
  have hdq : (d : ℚ) ≠ 0 := by exact_mod_cast hd
  have hsplit : (d : ℚ) * (q : ℚ) + (r : ℚ) = (a : ℚ) := by
    have h5 := Nat.div_add_mod a d
    have h6 : ((d * (a / d) + a % d : ℕ) : ℚ) = ((a : ℕ) : ℚ) := by exact_mod_cast h5
    push_cast at h6
    rw [hq, hr]
    linarith
  have hx'eq : x' = (q : ℚ) + (r : ℚ) / (d : ℚ) := by
    rw [hx']
    field_simp
    linarith
  have hrd : (r : ℚ) / (d : ℚ) < 1 := by
    rw [div_lt_one (by exact_mod_cast hdpos)]
    exact_mod_cast Nat.mod_lt a hdpos
  have hrd0 : (0 : ℚ) ≤ (r : ℚ) / (d : ℚ) := by positivity
  have hx'0 : (q : ℚ) ≤ x' := by rw [hx'eq]; linarith
  have hx'1 : x' < (q : ℚ) + 1 := by rw [hx'eq]; linarith
  have hR0 : r = 0 → x' = (q : ℚ) := by
    intro h5
    rw [hx'eq, h5]
    push_cast
    ring
  obtain ⟨hg1, hg2, hg3, hg4⟩ := flQM_grid q r h53q x' hx'0 hx'1 hR0
  set kq := bitLen q - 53 with hkq
  rw [flQ_eq n d hn hd]
  have ht : (0 : ℚ) < (2 : ℚ) ^ (-(s : ℤ)) := zpow_pos (by norm_num) _
  have habs : ∀ p b : ℚ,
      |p * (2 : ℚ) ^ (-(s : ℤ)) - b * (2 : ℚ) ^ (-(s : ℤ))| =
        |p - b| * (2 : ℚ) ^ (-(s : ℤ)) := by
    intro p b
    rw [← sub_mul, abs_mul, abs_of_pos ht]
  have hxs : (n : ℚ) / (d : ℚ) = x' * (2 : ℚ) ^ (-(s : ℤ)) := by
    rw [hx']
    have haq : (a : ℚ) = (n : ℚ) * (2 : ℚ) ^ (s : ℕ) := by
      rw [ha]
      push_cast
      ring
    rw [haq]
    rw [zpow_neg, ← zpow_natCast (2 : ℚ) s]
    field_simp
    ring
  have hval2 : Dy.val ⟨((flQM q r : ℕ) : ℤ), ((kq : ℕ) : ℤ) - ((s : ℕ) : ℤ)⟩ =
      ((flQM q r : ℚ) * (2 : ℚ) ^ (kq : ℕ)) * (2 : ℚ) ^ (-(s : ℤ)) := by
    simp only [Dy.val]
    rw [show ((kq : ℕ) : ℤ) - ((s : ℕ) : ℤ) = ((kq : ℕ) : ℤ) + (-(s : ℤ)) by ring]
    rw [zpow_add₀ (by norm_num : (2 : ℚ) ≠ 0), zpow_natCast]
    push_cast
    ring
  have hval3 : (j : ℚ) * (2 : ℚ) ^ f =
      ((j : ℚ) * (2 : ℚ) ^ (f + (s : ℤ))) * (2 : ℚ) ^ (-(s : ℤ)) := by
    rw [mul_assoc, ← zpow_add₀ (by norm_num : (2 : ℚ) ≠ 0)]
    congr 2
    ring
  rw [hxs, hval2, hval3, habs, habs]
  apply mul_le_mul_of_nonneg_right _ (le_of_lt ht)
  have hq0 : q ≠ 0 := by
    intro h5
    rw [h5, bitLen_zero] at hq121
    omega
  have hxlo : (2 : ℚ) ^ (bitLen q - 1) ≤ x' := by
    have h5 : ((2 ^ (bitLen q - 1) : ℕ) : ℚ) ≤ ((q : ℕ) : ℚ) := by
      exact_mod_cast two_pow_bitLen_le q hq0
    push_cast at h5
    linarith
  exact nearest_grid_to_repr x' ((flQM q r : ℚ) * 2 ^ (kq : ℕ)) (bitLen q) kq hkq h53q
    hxlo hg3 hg4 j (f + (s : ℤ)) hj

/-- Two correctly rounded values of ordered inputs are ordered: the
midpoint argument. -/
theorem rn_mono (x y u v : ℚ) (hxy : x < y)
    (hxu : ∀ (j : ℕ) (f : ℤ), j ≤ 2 ^ 53 → |x - u| ≤ |x - (j : ℚ) * (2 : ℚ) ^ f|)
    (hyv : ∀ (j : ℕ) (f : ℤ), j ≤ 2 ^ 53 → |y - v| ≤ |y - (j : ℚ) * (2 : ℚ) ^ f|)
    (hurep : ∃ (j : ℕ) (f : ℤ), j ≤ 2 ^ 53 ∧ u = (j : ℚ) * (2 : ℚ) ^ f)
    (hvrep : ∃ (j : ℕ) (f : ℤ), j ≤ 2 ^ 53 ∧ v = (j : ℚ) * (2 : ℚ) ^ f) :
    u ≤ v := by
  obtain ⟨ju, fu, hju, hu⟩ := hurep
  obtain ⟨jv, fv, hjv, hv⟩ := hvrep
  have h1 : |x - u| ≤ |x - v| := by
    rw [hv]
    exact hxu jv fv hjv
  have h2 : |y - v| ≤ |y - u| := by
    rw [hu]
    exact hyv ju fu hju
  by_contra hvu
  push_neg at hvu
  have hs1 : (x - u) ^ 2 ≤ (x - v) ^ 2 := by
    have h3 := pow_le_pow_left₀ (abs_nonneg (x - u)) h1 2
    rwa [sq_abs, sq_abs] at h3
  have hs2 : (y - v) ^ 2 ≤ (y - u) ^ 2 := by
    have h3 := pow_le_pow_left₀ (abs_nonneg (y - v)) h2 2
    rwa [sq_abs, sq_abs] at h3
  nlinarith [hs1, hs2, mul_pos (sub_pos.mpr hxy) (sub_pos.mpr hvu)]

theorem flQM_bounds (Q R : ℕ) (h53 : 53 < bitLen Q) :
    2 ^ 52 ≤ flQM Q R ∧ flQM Q R ≤ 2 ^ 53 := by
  have hQ0 : Q ≠ 0 := by
    intro h
    rw [h, bitLen_zero] at h53
    omega
  set k := bitLen Q - 53 with hkdef
  set high := Q / 2 ^ k with hhighdef
  set rem := Q % 2 ^ k with hremdef
  have hm : flQM Q R = if rem < 2 ^ (k - 1) then high
      else if 2 ^ (k - 1) < rem then high + 1
      else if R ≠ 0 then high + 1
      else if high % 2 = 0 then high else high + 1 := rfl
  have hbit : bitLen Q = 53 + k := by omega
  have hhi : high < 2 ^ 53 := by
    rw [hhighdef]
    rw [Nat.div_lt_iff_lt_mul (by positivity)]
    calc Q < 2 ^ bitLen Q := lt_two_pow_bitLen Q
      _ = 2 ^ 53 * 2 ^ k := by rw [hbit, pow_add]
  have hlo : 2 ^ 52 ≤ high := by
    rw [hhighdef]
    rw [Nat.le_div_iff_mul_le (by positivity)]
    calc 2 ^ 52 * 2 ^ k = 2 ^ (52 + k) := by rw [pow_add]
      _ = 2 ^ (bitLen Q - 1) := by congr 1; omega
      _ ≤ Q := two_pow_bitLen_le Q hQ0
  have hor : flQM Q R = high ∨ flQM Q R = high + 1 := by
    rw [hm]
    split_ifs <;> simp
  rcases hor with h | h <;> rw [h] <;> omega

theorem flQ_q_big (n d : ℕ) (hn : n ≠ 0) (hd : d ≠ 0) :
    121 ≤ bitLen (n * 2 ^ (120 + bitLen d) / d) := by
  have hdpos : 0 < d := Nat.pos_of_ne_zero hd
  have h1 : 2 ^ (120 + bitLen d) ≤ n * 2 ^ (120 + bitLen d) :=
    Nat.le_mul_of_pos_left _ (Nat.pos_of_ne_zero hn)
  have h2 : 2 ^ 120 * d ≤ 2 ^ (120 + bitLen d) := by
    rw [pow_add]
    exact Nat.mul_le_mul_left _ (le_of_lt (lt_two_pow_bitLen d))
  have h3 : 2 ^ 120 ≤ n * 2 ^ (120 + bitLen d) / d := by
    calc 2 ^ 120 = 2 ^ 120 * d / d := by rw [Nat.mul_div_cancel _ hdpos]
      _ ≤ 2 ^ (120 + bitLen d) / d := Nat.div_le_div_right h2
      _ ≤ n * 2 ^ (120 + bitLen d) / d := Nat.div_le_div_right h1
  have := bitLen_gt 120 _ h3
  omega

theorem flDy_shape (n : ℕ) (e : ℤ) :
    ∃ m' : ℕ, ∃ e' : ℤ, flDy ⟨(n : ℤ), e⟩ = ⟨((m' : ℕ) : ℤ), e'⟩ ∧ m' ≤ 2 ^ 53 := by
  by_cases hn : n = 0
  · subst hn
    exact ⟨0, 0, by rw [show ((0 : ℕ) : ℤ) = (0 : ℤ) by norm_num, flDy_eq_zero],
      by norm_num⟩
  by_cases hL : bitLen n ≤ 53
  · refine ⟨n, e, flDy_eq_small n e hn hL, ?_⟩
    have h1 := lt_two_pow_bitLen n
    have h2 : (2 : ℕ) ^ bitLen n ≤ 2 ^ 53 := Nat.pow_le_pow_right (by norm_num) hL
    omega
  · push_neg at hL
    exact ⟨flQM n 0, e + ((bitLen n - 53 : ℕ) : ℤ), flDy_eq_big n e hL,
      (flQM_bounds n 0 hL).2⟩

theorem flDy_repr (n : ℕ) (e : ℤ) :
    ∃ (j : ℕ) (g : ℤ), j ≤ 2 ^ 53 ∧ Dy.val (flDy ⟨(n : ℤ), e⟩) = (j : ℚ) * (2 : ℚ) ^ g := by
  obtain ⟨m', e', hsh, hb⟩ := flDy_shape n e
  exact ⟨m', e', hb, by rw [hsh]; rfl⟩

theorem flQ_zero_left (d : ℕ) : flQ 0 d = ⟨0, 0⟩ := by simp [flQ]

theorem flQ_zero_right (n : ℕ) : flQ n 0 = ⟨0, 0⟩ := by simp [flQ]

theorem flQ_shape (n d : ℕ) (hn : n ≠ 0) (hd : d ≠ 0) :
    ∃ M : ℕ, ∃ E : ℤ, flQ n d = ⟨((M : ℕ) : ℤ), E⟩ ∧ 2 ^ 52 ≤ M ∧ M ≤ 2 ^ 53 := by
  have hbig : 53 < bitLen (n * 2 ^ (120 + bitLen d) / d) := by
    have := flQ_q_big n d hn hd
    omega
  obtain ⟨hb1, hb2⟩ := flQM_bounds (n * 2 ^ (120 + bitLen d) / d)
    (n * 2 ^ (120 + bitLen d) % d) hbig
  exact ⟨_, _, flQ_eq n d hn hd, hb1, hb2⟩

theorem flQ_repr (n d : ℕ) :
    ∃ (j : ℕ) (g : ℤ), j ≤ 2 ^ 53 ∧ Dy.val (flQ n d) = (j : ℚ) * (2 : ℚ) ^ g := by
  by_cases hn : n = 0
  · subst hn
    exact ⟨0, 0, by norm_num, by rw [flQ_zero_left]; simp [Dy.val]⟩
  by_cases hd : d = 0
  · subst hd
    exact ⟨0, 0, by norm_num, by rw [flQ_zero_right]; simp [Dy.val]⟩
  · obtain ⟨M, E, hsh, hb1, hb2⟩ := flQ_shape n d hn hd
    exact ⟨M, E, hb2, by rw [hsh]; rfl⟩

theorem jsRoundDy_floor (m : ℕ) (e : ℤ) :
    jsRoundDy ⟨(m : ℤ), e⟩ = ⌊Dy.val ⟨(m : ℤ), e⟩ + 1 / 2⌋ := by
  by_cases he : 0 ≤ e
  · simp only [jsRoundDy, if_pos he, Dy.val]
    have hval : ((m : ℤ) : ℚ) * (2 : ℚ) ^ e = (((m : ℤ) * 2 ^ e.toNat : ℤ) : ℚ) := by
      push_cast
      rw [← zpow_natCast (2 : ℚ) e.toNat, Int.toNat_of_nonneg he]
    rw [hval, add_comm, Int.floor_add_int]
    norm_num
  · push_neg at he
    simp only [jsRoundDy, if_neg (not_le.mpr he), Dy.val]
    set K := (-e).toNat with hK
    have hKe : (K : ℤ) = -e := Int.toNat_of_nonneg (by omega)
    rw [Int.fdiv_eq_ediv _ (by positivity)]
    have harg : ((m : ℤ) : ℚ) * (2 : ℚ) ^ e + 1 / 2 =
        ((2 * (m : ℤ) + 2 ^ K : ℤ) : ℚ) / ((2 ^ (K + 1) : ℕ) : ℚ) := by
      have h2e : (2 : ℚ) ^ e = ((2 : ℚ) ^ K)⁻¹ := by
        rw [← zpow_natCast (2 : ℚ) K, ← zpow_neg]
        congr 1
        omega
      rw [h2e]
      push_cast
      have h2K : (0 : ℚ) < (2 : ℚ) ^ K := by positivity
      field_simp
      ring
    rw [harg, Rat.floor_intCast_div_natCast]
    congr 1
    push_cast
    ring

theorem flQM_double (a : ℕ) (h : 53 < bitLen a) : flQM (2 * a) 0 = flQM a 0 := by
  have ha : a ≠ 0 := by
    intro h0
    rw [h0, bitLen_zero] at h
    omega
  have hb : bitLen (2 * a) = bitLen a + 1 := bitLen_two_mul a ha
  have hm2 : flQM (2 * a) 0 = if 2 * a % 2 ^ (bitLen (2 * a) - 53) <
        2 ^ (bitLen (2 * a) - 53 - 1) then 2 * a / 2 ^ (bitLen (2 * a) - 53)
      else if 2 ^ (bitLen (2 * a) - 53 - 1) < 2 * a % 2 ^ (bitLen (2 * a) - 53) then
        2 * a / 2 ^ (bitLen (2 * a) - 53) + 1
      else if (0 : ℕ) ≠ 0 then 2 * a / 2 ^ (bitLen (2 * a) - 53) + 1
      else if (2 * a / 2 ^ (bitLen (2 * a) - 53)) % 2 = 0 then
        2 * a / 2 ^ (bitLen (2 * a) - 53)
      else 2 * a / 2 ^ (bitLen (2 * a) - 53) + 1 := rfl
  have hm1 : flQM a 0 = if a % 2 ^ (bitLen a - 53) < 2 ^ (bitLen a - 53 - 1) then
        a / 2 ^ (bitLen a - 53)
      else if 2 ^ (bitLen a - 53 - 1) < a % 2 ^ (bitLen a - 53) then
        a / 2 ^ (bitLen a - 53) + 1
      else if (0 : ℕ) ≠ 0 then a / 2 ^ (bitLen a - 53) + 1
      else if (a / 2 ^ (bitLen a - 53)) % 2 = 0 then a / 2 ^ (bitLen a - 53)
      else a / 2 ^ (bitLen a - 53) + 1 := rfl
  rw [hm1, hm2, hb]
  set k := bitLen a - 53 with hkdef
  have hk1 : 1 ≤ k := by omega
  have hkk : bitLen a + 1 - 53 = k + 1 := by omega
  rw [hkk]
  have hdiv : 2 * a / 2 ^ (k + 1) = a / 2 ^ k := by
    rw [pow_succ']
    exact Nat.mul_div_mul_left a (2 ^ k) (by norm_num)
  have hmod : 2 * a % 2 ^ (k + 1) = 2 * (a % 2 ^ k) := by
    rw [pow_succ']
    exact Nat.mul_mod_mul_left 2 a (2 ^ k)
  have hhalf : k + 1 - 1 = k := by omega
  rw [hdiv, hmod, hhalf]
  have hhalf2 : (2 : ℕ) ^ k = 2 * 2 ^ (k - 1) := by
    rw [← pow_succ']
    congr 1
    omega
  split_ifs <;> omega

theorem flDy_val_double (a : ℕ) (e : ℤ) (ha : a ≠ 0) :
    Dy.val (flDy ⟨((2 * a : ℕ) : ℤ), e⟩) = Dy.val (flDy ⟨(a : ℤ), e + 1⟩) := by
  have hb : bitLen (2 * a) = bitLen a + 1 := bitLen_two_mul a ha
  have ha2 : 2 * a ≠ 0 := by omega
  by_cases hL : bitLen a ≤ 52
  · -- both stay exact
    rw [flDy_eq_small (2 * a) e ha2 (by omega), flDy_eq_small a (e + 1) ha (by omega)]
    simp only [Dy.val]
    rw [zpow_add₀ (by norm_num : (2 : ℚ) ≠ 0)]
    push_cast
    ring
  by_cases hL2 : bitLen a = 53
  · -- the doubled value rounds with k = 1 and no remainder
    rw [flDy_eq_big (2 * a) e (by omega), flDy_eq_small a (e + 1) ha (by omega)]
    have hM : flQM (2 * a) 0 = a := by
      have hm2 : flQM (2 * a) 0 = if 2 * a % 2 ^ (bitLen (2 * a) - 53) <
            2 ^ (bitLen (2 * a) - 53 - 1) then 2 * a / 2 ^ (bitLen (2 * a) - 53)
          else if 2 ^ (bitLen (2 * a) - 53 - 1) < 2 * a % 2 ^ (bitLen (2 * a) - 53) then
            2 * a / 2 ^ (bitLen (2 * a) - 53) + 1
          else if (0 : ℕ) ≠ 0 then 2 * a / 2 ^ (bitLen (2 * a) - 53) + 1
          else if (2 * a / 2 ^ (bitLen (2 * a) - 53)) % 2 = 0 then
            2 * a / 2 ^ (bitLen (2 * a) - 53)
          else 2 * a / 2 ^ (bitLen (2 * a) - 53) + 1 := rfl
      rw [hm2, hb, hL2]
      norm_num
    rw [hM]
    simp only [Dy.val]
    have hkk : bitLen (2 * a) - 53 = 1 := by omega
    rw [hkk]
    norm_num
  · -- both round, with the same mantissa
    push_neg at hL2
    have hL3 : 53 < bitLen a := by omega
    rw [flDy_eq_big (2 * a) e (by omega), flDy_eq_big a (e + 1) hL3,
        flQM_double a hL3]
    simp only [Dy.val]
    congr 1
    have hkk : bitLen (2 * a) - 53 = (bitLen a - 53) + 1 := by omega
    rw [hkk]
    push_cast
    ring_nf

theorem flDy_val_eq_scale (M1 M2 : ℕ) (E1 E2 : ℤ) (hE : E1 ≤ E2)
    (hlo2 : 2 ^ 52 ≤ M2) (hhi1 : M1 ≤ 2 ^ 53)
    (hval : (M1 : ℚ) * (2 : ℚ) ^ E1 = (M2 : ℚ) * (2 : ℚ) ^ E2) :
    Dy.val (flDy ⟨((M1 * 100 : ℕ) : ℤ), E1⟩) =
      Dy.val (flDy ⟨((M2 * 100 : ℕ) : ℤ), E2⟩) := by
  set t := (E2 - E1).toNat with hT
  have hTe : (t : ℤ) = E2 - E1 := Int.toNat_of_nonneg (by omega)
  have hpos : (0 : ℚ) < (2 : ℚ) ^ E1 := zpow_pos (by norm_num) E1
  have hM1 : (M1 : ℚ) = (M2 : ℚ) * 2 ^ t := by
    have h2 : (2 : ℚ) ^ E2 = (2 : ℚ) ^ E1 * 2 ^ (t : ℕ) := by
      rw [← zpow_natCast (2 : ℚ) t, ← zpow_add₀ (by norm_num : (2 : ℚ) ≠ 0)]
      congr 1
      omega
    rw [h2] at hval
    have h3 : (M1 : ℚ) * (2 : ℚ) ^ E1 = ((M2 : ℚ) * 2 ^ t) * (2 : ℚ) ^ E1 := by
      rw [hval]
      ring
    exact mul_right_cancel₀ (ne_of_gt hpos) h3
  have hM1n : M1 = M2 * 2 ^ t := by exact_mod_cast hM1
  have ht1 : t ≤ 1 := by
    by_contra h2
    have h3 : 2 ≤ t := by omega
    have h4 : (2 : ℕ) ^ 2 ≤ 2 ^ t := Nat.pow_le_pow_right (by norm_num) h3
    have h5 : 2 ^ 52 * 2 ^ 2 ≤ M2 * 2 ^ t := Nat.mul_le_mul hlo2 h4
    have h6 : (2 : ℕ) ^ 52 * 2 ^ 2 = 2 ^ 54 := by norm_num
    have h7 : (2 : ℕ) ^ 53 < 2 ^ 54 := by norm_num
    omega
  interval_cases t
  · have hEeq : E1 = E2 := by omega
    have hMeq : M1 = M2 := by omega
    rw [hEeq, hMeq]
  · have hE2 : E2 = E1 + 1 := by omega
    have hM12 : M1 * 100 = 2 * (M2 * 100) := by
      have : M1 = 2 * M2 := by omega
      omega
    rw [hM12, hE2]
    exact flDy_val_double (M2 * 100) E1 (by positivity)

theorem fmul_100_eq (M : ℕ) (E : ℤ) :
    fmul ⟨((M : ℕ) : ℤ), E⟩ ⟨100, 0⟩ = flDy ⟨((M * 100 : ℕ) : ℤ), E⟩ := by
  simp only [fmul, Dy.mulExact]
  norm_num

theorem progressValue_zero (total : ℕ) : progressValue 0 total = 0 := by
  unfold progressValue
  rw [flQ_zero_left]
  decide

theorem progressValue_nonneg (ts total : ℕ) : 0 ≤ progressValue ts total := by
  by_cases hts : ts = 0
  · subst hts
    rw [progressValue_zero]
  by_cases htot : total = 0
  · subst htot
    unfold progressValue
    rw [flQ_zero_right]
    decide
  obtain ⟨M, E, hsh, _, _⟩ := flQ_shape ts total hts htot
  unfold progressValue
  rw [hsh, fmul_100_eq]
  obtain ⟨m', e', hsh2, _⟩ := flDy_shape (M * 100) E
  rw [hsh2, jsRoundDy_floor]
  apply Int.le_floor.mpr
  have hval : (0 : ℚ) ≤ Dy.val ⟨((m' : ℕ) : ℤ), e'⟩ := by
    simp only [Dy.val]
    positivity
  push_cast
  linarith

theorem progressValue_mono (total : ℕ) {t1 t2 : ℕ} (h : t1 ≤ t2) :
    progressValue t1 total ≤ progressValue t2 total := by
  rcases Nat.eq_or_lt_of_le h with heq | hlt
  · rw [heq]
  by_cases htot : total = 0
  · subst htot
    unfold progressValue
    rw [flQ_zero_right, flQ_zero_right]
  by_cases h1 : t1 = 0
  · subst h1
    rw [progressValue_zero]
    exact progressValue_nonneg t2 total
  have h2 : t2 ≠ 0 := by omega
  obtain ⟨M1, E1, hsh1, hlo1, hhi1⟩ := flQ_shape t1 total h1 htot
  obtain ⟨M2, E2, hsh2, hlo2, hhi2⟩ := flQ_shape t2 total h2 htot
  have hx : (t1 : ℚ) / (total : ℚ) < (t2 : ℚ) / (total : ℚ) := by
    have hc : (0 : ℚ) < (total : ℚ) := by exact_mod_cast Nat.pos_of_ne_zero htot
    exact div_lt_div_of_pos_right (by exact_mod_cast hlt) hc
  have hu_le_v : Dy.val (flQ t1 total) ≤ Dy.val (flQ t2 total) :=
    rn_mono ((t1 : ℚ) / (total : ℚ)) ((t2 : ℚ) / (total : ℚ)) _ _ hx
      (fun j f hj => flQ_nearest t1 total h1 htot j f hj)
      (fun j f hj => flQ_nearest t2 total h2 htot j f hj)
      (flQ_repr t1 total) (flQ_repr t2 total)
  have hv1 : Dy.val ⟨((M1 * 100 : ℕ) : ℤ), E1⟩ = 100 * Dy.val (flQ t1 total) := by
    rw [hsh1]
    simp only [Dy.val]
    push_cast
    ring
  have hv2 : Dy.val ⟨((M2 * 100 : ℕ) : ℤ), E2⟩ = 100 * Dy.val (flQ t2 total) := by
    rw [hsh2]
    simp only [Dy.val]
    push_cast
    ring
  have hle : Dy.val (flDy ⟨((M1 * 100 : ℕ) : ℤ), E1⟩) ≤
      Dy.val (flDy ⟨((M2 * 100 : ℕ) : ℤ), E2⟩) := by
    rcases eq_or_lt_of_le hu_le_v with heq | hstrict
    · -- equal double quotients round identically after the product with 100
      have hvaleq : (M1 : ℚ) * (2 : ℚ) ^ E1 = (M2 : ℚ) * (2 : ℚ) ^ E2 := by
        have e1 : Dy.val (flQ t1 total) = (M1 : ℚ) * (2 : ℚ) ^ E1 := by
          rw [hsh1]
          rfl
        have e2 : Dy.val (flQ t2 total) = (M2 : ℚ) * (2 : ℚ) ^ E2 := by
          rw [hsh2]
          rfl
        rw [← e1, ← e2, heq]
      rcases le_total E1 E2 with hE | hE
      · exact le_of_eq (flDy_val_eq_scale M1 M2 E1 E2 hE hlo2 hhi1 hvaleq)
      · exact le_of_eq (flDy_val_eq_scale M2 M1 E2 E1 hE hlo1 hhi2 hvaleq.symm).symm
    · exact rn_mono (Dy.val ⟨((M1 * 100 : ℕ) : ℤ), E1⟩)
        (Dy.val ⟨((M2 * 100 : ℕ) : ℤ), E2⟩) _ _
        (by rw [hv1, hv2]; linarith)
        (fun j f hj => flDy_nearest (M1 * 100) E1 j f hj)
        (fun j f hj => flDy_nearest (M2 * 100) E2 j f hj)
        (flDy_repr (M1 * 100) E1) (flDy_repr (M2 * 100) E2)
  unfold progressValue
  rw [hsh1, hsh2, fmul_100_eq, fmul_100_eq]
  obtain ⟨m1, f1, hq1, _⟩ := flDy_shape (M1 * 100) E1
  obtain ⟨m2, f2, hq2, _⟩ := flDy_shape (M2 * 100) E2
  rw [hq1, hq2, jsRoundDy_floor, jsRoundDy_floor]
  apply Int.floor_mono
  have h5 : Dy.val ⟨((m1 : ℕ) : ℤ), f1⟩ ≤ Dy.val ⟨((m2 : ℕ) : ℤ), f2⟩ := by
    rw [← hq1, ← hq2]
    exact hle
  linarith

theorem progressValue_le_100 (ts total : ℕ) (h : ts ≤ total) :
    progressValue ts total ≤ 100 := by
  by_cases hts : ts = 0
  · subst hts
    rw [progressValue_zero]
    norm_num
  have htot : total ≠ 0 := by omega
  obtain ⟨M, E, hsh, hlo, hhi⟩ := flQ_shape ts total hts htot
  have hx1 : (ts : ℚ) / (total : ℚ) ≤ 1 := by
    rw [div_le_one (by exact_mod_cast Nat.pos_of_ne_zero htot)]
    exact_mod_cast h
  have hx0 : (0 : ℚ) ≤ (ts : ℚ) / (total : ℚ) := by positivity
  have hu1 : Dy.val (flQ ts total) ≤ 1 := by
    have hnear := flQ_nearest ts total hts htot 1 0 (by norm_num)
    norm_num at hnear
    by_contra hc
    push_neg at hc
    rw [abs_of_nonpos (by linarith), abs_of_nonpos (by linarith)] at hnear
    linarith
  have hv1 : Dy.val ⟨((M * 100 : ℕ) : ℤ), E⟩ = 100 * Dy.val (flQ ts total) := by
    rw [hsh]
    simp only [Dy.val]
    push_cast
    ring
  have hu0 : (0 : ℚ) ≤ Dy.val (flQ ts total) := by
    rw [hsh]
    simp only [Dy.val]
    positivity
  have hv100 : Dy.val (flDy ⟨((M * 100 : ℕ) : ℤ), E⟩) ≤ 100 := by
    have hnear := flDy_nearest (M * 100) E 25 2 (by norm_num)
    rw [show ((25 : ℕ) : ℚ) * (2 : ℚ) ^ (2 : ℤ) = 100 by norm_num] at hnear
    by_contra hc
    push_neg at hc
    rw [hv1] at hnear
    rw [abs_of_nonpos (by linarith), abs_of_nonpos (by linarith)] at hnear
    linarith
  unfold progressValue
  rw [hsh, fmul_100_eq]
  obtain ⟨m1, f1, hq1, _⟩ := flDy_shape (M * 100) E
  rw [hq1, jsRoundDy_floor]
  have h5 : Dy.val ⟨((m1 : ℕ) : ℤ), f1⟩ ≤ 100 := by
    rw [← hq1]
    exact hv100
  have h6 := Int.floor_mono (show Dy.val ⟨((m1 : ℕ) : ℤ), f1⟩ + 1 / 2 ≤ (201 : ℚ) / 2 by
    linarith)
  have h7 : ⌊(201 : ℚ) / 2⌋ = 100 := by norm_num
  omega

/-! ## Lemmas: the scan loop invariant -/

theorem scanInv_update (n : Nat) (st st' : ScanState) (h : scanInv n st)
    (hrep : st'.reports = st.reports)
    (h1 : st'.session.totalTargets = st.session.totalTargets)
    (h2 : st'.session.status = st.session.status)
    (h3 : st'.session.targetsScanned = st.session.targetsScanned)
    (h4 : st'.session.progress = st.session.progress) :
    scanInv n st' := by
  obtain ⟨hTotal, hStatus, hProg, hNe, hLast, hChain, hAll⟩ := h
  refine ⟨?_, ?_, ?_, ?_, ?_, ?_, ?_⟩
  · rw [h1, hTotal]
  · rw [h2, hStatus]
  · rw [h4, h3, hProg]
  · rw [hrep]; exact hNe
  · rw [hrep, h4]; exact hLast
  · rw [hrep]; exact hChain
  · rw [hrep]; exact hAll

theorem scanInv_advance (n : Nat) (st : ScanState) (s : MonitoringSession) (h : scanInv n st)
    (h1 : s.totalTargets = n) (h2 : s.status = SessionStatus.scanning)
    (h3 : s.progress = progressValue s.targetsScanned n)
    (h4 : st.session.progress ≤ s.progress) :
    scanInv n (ScanState.report { st with session := s }) := by
  obtain ⟨hTotal, hStatus, hProg, hNe, hLast, hChain, hAll⟩ := h
  refine ⟨h1, h2, h3, ?_, ?_, ?_, ?_⟩
  · show st.reports ++ [s] ≠ []
    simp
  · show (st.reports ++ [s]).getLast?.map (fun r => r.progress) = some s.progress
    rw [List.getLast?_concat]
    rfl
  · show ((st.reports ++ [s]).map (fun r => r.progress)).Chain' (· ≤ ·)
    rw [List.map_append]
    refine List.chain'_append.mpr ⟨hChain, List.chain'_singleton _, ?_⟩
    intro x hx y hy
    rw [List.getLast?_map] at hx
    rw [hLast] at hx
    simp only [Option.mem_def, Option.some.injEq] at hx
    simp only [List.map_cons, List.map_nil, List.head?_cons, Option.mem_def,
      Option.some.injEq] at hy
    subst hx
    subst hy
    exact h4
  · intro r hr
    rcases List.mem_append.mp hr with hr' | hr'
    · exact hAll r hr'
    · have : r = s := by simpa using hr'
      subst this
      refine ⟨h1, ?_, Or.inl h3⟩
      rw [h2]
      simp

theorem scanInv_rereport (n : Nat) (st : ScanState) (h : scanInv n st) :
    scanInv n st.report := by
  have h' := h
  obtain ⟨hTotal, hStatus, hProg, _, _, _, _⟩ := h'
  exact scanInv_advance n st st.session h hTotal hStatus hProg (le_refl _)

theorem scanInv_emit (n : Nat) (st : ScanState) (a : ContentAlert) (h : scanInv n st) :
    scanInv n (st.emit a) :=
  scanInv_update n st (st.emit a) h rfl rfl rfl rfl rfl

theorem scanPair_inv (n now : Nat) (oracle : Nat → CrawlOutcome) (target : MonitoringTarget)
    (asset : ProtectedAsset) (st : ScanState) (h : scanInv n st) :
    scanInv n (scanPair now oracle target (asset, st)).2 ∧
    (scanPair now oracle target (asset, st)).2.session.targetsScanned =
      st.session.targetsScanned + 1 := by
  have hTotal := h.1
  have hStatus := h.2.1
  have hProg := h.2.2.1
  have hs1_ts : (pairSession target st.session).targetsScanned =
      st.session.targetsScanned + 1 := rfl
  have hs1_prog : (pairSession target st.session).progress =
      progressValue (pairSession target st.session).targetsScanned n := by
    show progressValue (st.session.targetsScanned + 1) st.session.totalTargets = _
    rw [hTotal, hs1_ts]
  have hs1_ge : st.session.progress ≤ (pairSession target st.session).progress := by
    rw [hProg]
    show _ ≤ progressValue (st.session.targetsScanned + 1) st.session.totalTargets
    rw [hTotal]
    exact progressValue_mono n (Nat.le_succ _)
  have hst1 : scanInv n (ScanState.report { st with session := pairSession target st.session }) :=
    scanInv_advance n st (pairSession target st.session) h hTotal hStatus hs1_prog hs1_ge
  rcases ho : oracle st.session.targetsScanned with ⟨found, sim, url⟩ | ⟨⟩
  · by_cases hb : (found && truthyUrl url) = true
    · simp only [scanPair, ho, hb, if_true]
      exact ⟨scanInv_rereport n _ (scanInv_emit n _ _
        (scanInv_update n _ _ hst1 rfl rfl rfl rfl rfl)), rfl⟩
    · rw [Bool.not_eq_true] at hb
      simp only [scanPair, ho, hb, if_false]
      exact ⟨hst1, rfl⟩
  · simp only [scanPair, ho]
    exact ⟨hst1, rfl⟩

theorem scanPair_match_count (now : Nat) (oracle : Nat → CrawlOutcome)
    (target : MonitoringTarget) (asset : ProtectedAsset) (st : ScanState)
    (h : st.session.matchesFound = countMatchFound st.emitted) :
    (scanPair now oracle target (asset, st)).2.session.matchesFound =
      countMatchFound (scanPair now oracle target (asset, st)).2.emitted := by
  rcases ho : oracle st.session.targetsScanned with ⟨found, sim, url⟩ | ⟨⟩
  · by_cases hb : (found && truthyUrl url) = true
    · simp only [scanPair, ho, hb, if_true]
      show st.session.matchesFound + 1 =
        countMatchFound (st.emitted ++ [matchAlert now st.session.targetsScanned target asset sim url])
      rw [h]
      unfold countMatchFound
      rw [List.filter_append]
      simp [matchAlert]
    · rw [Bool.not_eq_true] at hb
      simp only [scanPair, ho, hb, if_false]
      exact h
  · simp only [scanPair, ho]
    exact h

theorem scanTargets_inv (n now : Nat) (oracle : Nat → CrawlOutcome)
    (targets : List MonitoringTarget) :
    ∀ (asset : ProtectedAsset) (st : ScanState), scanInv n st →
      scanInv n (targets.foldl (fun acc t => scanPair now oracle t acc) (asset, st)).2 ∧
      (targets.foldl (fun acc t => scanPair now oracle t acc) (asset, st)).2.session.targetsScanned
        = st.session.targetsScanned + targets.length := by
  induction targets with
  | nil =>
    intro asset st h
    exact ⟨h, by simp⟩
  | cons t ts ih =>
    intro asset st h
    rw [List.foldl_cons]
    obtain ⟨h1, h2⟩ := scanPair_inv n now oracle t asset st h
    obtain ⟨h3, h4⟩ :=
      ih (scanPair now oracle t (asset, st)).1 (scanPair now oracle t (asset, st)).2 h1
    refine ⟨h3, ?_⟩
    calc (ts.foldl (fun acc t => scanPair now oracle t acc)
          (scanPair now oracle t (asset, st))).2.session.targetsScanned
        = (scanPair now oracle t (asset, st)).2.session.targetsScanned + ts.length := h4
      _ = st.session.targetsScanned + (t :: ts).length := by
          rw [h2]
          simp
          omega

theorem scanTargets_match (now : Nat) (oracle : Nat → CrawlOutcome)
    (targets : List MonitoringTarget) :
    ∀ (asset : ProtectedAsset) (st : ScanState),
      st.session.matchesFound = countMatchFound st.emitted →
      (targets.foldl (fun acc t => scanPair now oracle t acc) (asset, st)).2.session.matchesFound
        = countMatchFound
          (targets.foldl (fun acc t => scanPair now oracle t acc) (asset, st)).2.emitted := by
  induction targets with
  | nil =>
    intro asset st h
    exact h
  | cons t ts ih =>
    intro asset st h
    rw [List.foldl_cons]
    exact ih (scanPair now oracle t (asset, st)).1 (scanPair now oracle t (asset, st)).2
      (scanPair_match_count now oracle t asset st h)

theorem scanAsset_inv (n now : Nat) (oracle : Nat → CrawlOutcome)
    (targets : List MonitoringTarget) (st : ScanState) (asset : ProtectedAsset)
    (h : scanInv n st) :
    scanInv n (scanAsset now oracle targets st asset) ∧
    (scanAsset now oracle targets st asset).session.targetsScanned =
      st.session.targetsScanned + targets.length := by
  obtain ⟨h1, h2⟩ := scanTargets_inv n now oracle targets asset st h
  exact ⟨scanInv_update n _ _ h1 rfl rfl rfl rfl rfl, h2⟩

theorem scanAsset_match (now : Nat) (oracle : Nat → CrawlOutcome)
    (targets : List MonitoringTarget) (st : ScanState) (asset : ProtectedAsset)
    (h : st.session.matchesFound = countMatchFound st.emitted) :
    (scanAsset now oracle targets st asset).session.matchesFound =
      countMatchFound (scanAsset now oracle targets st asset).emitted :=
  scanTargets_match now oracle targets asset st h

theorem scanAssets_inv (n now : Nat) (oracle : Nat → CrawlOutcome)
    (targets : List MonitoringTarget) (assets : List ProtectedAsset) :
    ∀ st, scanInv n st →
      scanInv n (assets.foldl (scanAsset now oracle targets) st) ∧
      (assets.foldl (scanAsset now oracle targets) st).session.targetsScanned =
        st.session.targetsScanned + assets.length * targets.length := by
  induction assets with
  | nil =>
    intro st h
    exact ⟨h, by simp⟩
  | cons a as ih =>
    intro st h
    rw [List.foldl_cons]
    obtain ⟨h1, h2⟩ := scanAsset_inv n now oracle targets st a h
    obtain ⟨h3, h4⟩ := ih _ h1
    refine ⟨h3, ?_⟩
    rw [h4, h2, List.length_cons, Nat.succ_mul]
    omega

theorem scanAssets_match (now : Nat) (oracle : Nat → CrawlOutcome)
    (targets : List MonitoringTarget) (assets : List ProtectedAsset) :
    ∀ st, st.session.matchesFound = countMatchFound st.emitted →
      (assets.foldl (scanAsset now oracle targets) st).session.matchesFound =
        countMatchFound (assets.foldl (scanAsset now oracle targets) st).emitted := by
  induction assets with
  | nil =>
    intro st h
    exact h
  | cons a as ih =>
    intro st h
    rw [List.foldl_cons]
    exact ih _ (scanAsset_match now oracle targets st a h)

theorem scanPair_match_effects (now : Nat) (oracle : Nat → CrawlOutcome)
    (target : MonitoringTarget) (asset : ProtectedAsset) (st : ScanState)
    (sim : ℚ) (url : Option String)
    (ho : oracle st.session.targetsScanned = CrawlOutcome.ok true sim url)
    (hu : truthyUrl url = true) :
    (scanPair now oracle target (asset, st)).1 =
      { asset with matchCount := asset.matchCount + 1, lastScanned := some now } ∧
    (scanPair now oracle target (asset, st)).2.session.matchesFound =
      st.session.matchesFound + 1 ∧
    (scanPair now oracle target (asset, st)).2.assets =
      saveProtectedAsset
        { asset with matchCount := asset.matchCount + 1, lastScanned := some now } st.assets ∧
    (scanPair now oracle target (asset, st)).2.emitted =
      st.emitted ++ [matchAlert now st.session.targetsScanned target asset sim url] ∧
    (matchAlert now st.session.targetsScanned target asset sim url).type =
      AlertType.match_found ∧
    (matchAlert now st.session.targetsScanned target asset sim url).severity =
      AlertSeverity.critical ∧
    (matchAlert now st.session.targetsScanned target asset sim url).similarity =
      some (jsRound sim) ∧
    (matchAlert now st.session.targetsScanned target asset sim url).matchUrl = url ∧
    (matchAlert now st.session.targetsScanned target asset sim url).assetId =
      some asset.id := by
  have hb : (true && truthyUrl url) = true := by simp [hu]
  simp only [scanPair, ho, hb, if_true]
  repeat' apply And.intro
  all_goals first
  | rfl
  | trivial

theorem runMonitoringScan_final (now : Nat) (oracle : Nat → CrawlOutcome)
    (astore : List ProtectedAsset) (tstore : List MonitoringTarget)
    (alstore : List ContentAlert) (hstore : List MonitoringSession) (st : ScanState)
    (hst : st = runMonitoringScan now oracle astore tstore alstore hstore) :
    st.session.status = SessionStatus.completed ∧
    st.session.progress = 100 ∧
    st.session.totalTargets =
      (tstore.filter fun t => t.enabled).length *
        (astore.filter fun a => a.monitoringEnabled).length ∧
    st.session.targetsScanned = st.session.totalTargets ∧
    st.reports ≠ [] ∧
    (st.reports.map fun r => r.progress).getLast? = some 100 ∧
    (st.reports.map fun r => r.progress).Chain' (· ≤ ·) ∧
    (∀ r ∈ st.reports, reportOK st.session.totalTargets r) ∧
    st.session.matchesFound = countMatchFound st.emitted := by
  subst hst
  by_cases hA : (astore.filter fun a => a.monitoringEnabled).isEmpty
  · -- no enabled assets: immediate completion
    have hnil : astore.filter (fun a => a.monitoringEnabled) = [] :=
      List.isEmpty_iff.mp hA
    simp only [runMonitoringScan, hA, if_true]
    refine ⟨rfl, rfl, rfl, ?_, ?_, ?_, ?_, ?_, ?_⟩
    · show (0 : Nat) = (tstore.filter fun t => t.enabled).length *
        (astore.filter fun a => a.monitoringEnabled).length
      rw [hnil]
      simp
    · exact List.cons_ne_nil _ _
    · rfl
    · show List.Chain' (· ≤ ·) ([] ++ [(0 : ℤ)] ++ [100])
      simp
    · intro r hr
      simp only [ScanState.report, ScanState.emit, List.nil_append, List.mem_append,
        List.mem_singleton] at hr
      rcases hr with rfl | rfl
      · refine ⟨rfl, by simp, Or.inl ?_⟩
        exact (progressValue_zero _).symm
      · exact ⟨rfl, by simp, Or.inr ⟨rfl, rfl⟩⟩
    · show (0 : Nat) = countMatchFound ([] ++ [noAssetsAlert now])
      simp [countMatchFound, noAssetsAlert]
  · -- at least one enabled asset: the full double loop
    simp only [runMonitoringScan, hA, Bool.false_eq_true, if_false]
    set assets := astore.filter (fun a => a.monitoringEnabled) with hassets
    set targets := tstore.filter (fun t => t.enabled) with htargets
    set n := targets.length * assets.length with hn
    set s0 : MonitoringSession :=
      { id := "scan_" ++ Nat.repr now, status := .scanning, startedAt := some now,
        completedAt := none, targetsScanned := 0, totalTargets := n,
        matchesFound := 0, currentTarget := none, progress := 0 } with hs0
    set st0 : ScanState :=
      { session := s0, assets := astore, alerts := alstore,
        emitted := [], reports := [], history := hstore } with hst0
    have hInv0 : scanInv n st0.report := by
      refine ⟨rfl, rfl, ?_, by simp [ScanState.report], rfl, ?_, ?_⟩
      · exact (progressValue_zero _).symm
      · show List.Chain' (· ≤ ·) (([] ++ [s0]).map fun r : MonitoringSession => r.progress)
        simp
      · intro r hr
        simp only [ScanState.report, List.nil_append, List.mem_singleton] at hr
        subst hr
        refine ⟨rfl, by simp, Or.inl ?_⟩
        exact (progressValue_zero _).symm
    obtain ⟨hInvF, htsF⟩ := scanAssets_inv n now oracle targets assets st0.report hInv0
    have hmatchF := scanAssets_match now oracle targets assets st0.report rfl
    set stF := assets.foldl (scanAsset now oracle targets) st0.report with hstF
    obtain ⟨hFtot, hFstat, hFprog, hFne, hFlast, hFchain, hFall⟩ := hInvF
    have htsF' : stF.session.targetsScanned = n := by
      rw [htsF]
      show 0 + assets.length * targets.length = n
      rw [Nat.zero_add, hn, Nat.mul_comm]
    have hprogle : stF.session.progress ≤ 100 := by
      rw [hFprog, htsF']
      exact progressValue_le_100 n n (le_refl n)
    refine ⟨rfl, rfl, hFtot, ?_, ?_, ?_, ?_, ?_, ?_⟩
    · show stF.session.targetsScanned = stF.session.totalTargets
      rw [htsF', hFtot]
    · show stF.reports ++ [_] ≠ []
      simp
    · show ((stF.reports ++ [_]).map fun r : MonitoringSession => r.progress).getLast? = some (100 : ℤ)
      rw [List.map_append]
      exact List.getLast?_concat _
    · show ((stF.reports ++ [_]).map fun r : MonitoringSession => r.progress).Chain' (· ≤ ·)
      rw [List.map_append]
      refine List.chain'_append.mpr ⟨hFchain, List.chain'_singleton _, ?_⟩
      intro x hx y hy
      rw [List.getLast?_map, hFlast] at hx
      simp only [Option.mem_def, Option.some.injEq] at hx
      simp only [List.map_cons, List.map_nil, List.head?_cons, Option.mem_def,
        Option.some.injEq] at hy
      subst hx
      subst hy
      exact hprogle
    · intro r hr
      rcases List.mem_append.mp hr with hr' | hr'
      · have := hFall r hr'
        rw [show stF.session.totalTargets = n from hFtot]
        exact this
      · have hre := List.mem_singleton.mp hr'
        subst hre
        exact ⟨rfl, fun hx => SessionStatus.noConfusion hx, Or.inr ⟨rfl, rfl⟩⟩
    · show stF.session.matchesFound = countMatchFound (stF.emitted ++ [_])
      rw [hmatchF]
      unfold countMatchFound
      rw [List.filter_append]
      simp [summaryAlert]

/-! ## Claim C6 -/

/-- C6 (amended): totalTargets is the number of enabled assets times the
number of enabled targets; every session snapshot handed to the
onProgress callback carries either Math.round((targetsScanned /
totalTargets) * 100) as binary64 evaluates it - which differs by one
from the rounding of the exact ratio at some reachable inputs, e.g.
targetsScanned 23 of 40 or 69 of 120 - or the terminal completed state
at 100; the reported progress sequence is non-decreasing and ends at
exactly 100; and for the concrete run with 2 enabled assets and 3
enabled targets (one disabled target ignored) the reported sequence is 0
at start, then 17, 33, 50, 67, 83, 100 per pair, and 100 at completion,
with totalTargets 6 (at total 6 the binary64 and exact roundings
agree). -/
theorem runMonitoringScan_progress_spec :
    (∀ (now : Nat) (oracle : Nat → CrawlOutcome) (astore : List ProtectedAsset)
        (tstore : List MonitoringTarget) (alstore : List ContentAlert)
        (hstore : List MonitoringSession),
      (runMonitoringScan now oracle astore tstore alstore hstore).session.totalTargets =
        (astore.filter fun a => a.monitoringEnabled).length *
          (tstore.filter fun t => t.enabled).length ∧
      (∀ r ∈ (runMonitoringScan now oracle astore tstore alstore hstore).reports,
        r.totalTargets =
          (runMonitoringScan now oracle astore tstore alstore hstore).session.totalTargets ∧
        (r.progress = progressValue r.targetsScanned r.totalTargets ∨
          (r.status = SessionStatus.completed ∧ r.progress = 100))) ∧
      ((runMonitoringScan now oracle astore tstore alstore hstore).reports.map
        fun r => r.progress).Chain' (· ≤ ·) ∧
      ((runMonitoringScan now oracle astore tstore alstore hstore).reports.map
        fun r => r.progress).getLast? = some 100) ∧
    ((runMonitoringScan 0 noMatchOracle exampleAssets exampleTargets [] []).reports.map
        fun r => r.progress) = [0, 17, 33, 50, 67, 83, 100, 100] ∧
    (runMonitoringScan 0 noMatchOracle exampleAssets exampleTargets [] []).session.totalTargets
      = 6 := by
  refine ⟨?_, ?_, ?_⟩
  · intro now oracle astore tstore alstore hstore
    obtain ⟨_, _, h3, _, _, h6, h7, h8, _⟩ :=
      runMonitoringScan_final now oracle astore tstore alstore hstore _ rfl
    refine ⟨by rw [h3, Nat.mul_comm], ?_, h7, h6⟩
    intro r hr
    obtain ⟨hrt, _, hrp⟩ := h8 r hr
    refine ⟨hrt, ?_⟩
    rcases hrp with hrp | hrp
    · left
      rw [hrt]
      exact hrp
    · right
      exact hrp
  · simp [runMonitoringScan, scanAsset, scanPair, ScanState.report, ScanState.emit, pairSession,
      exampleAssets, exampleTargets, exAsset, exTarget, noMatchOracle, truthyUrl,
      saveProtectedAsset, saveAlert, summaryAlert]
    decide
  · simp [runMonitoringScan, scanAsset, scanPair, ScanState.report, ScanState.emit, pairSession,
      exampleAssets, exampleTargets, exAsset, exTarget, noMatchOracle, truthyUrl,
      saveProtectedAsset, saveAlert, summaryAlert]

/-- C6 counterexample to the claim as stated: in the run with one
enabled asset and 40 enabled targets, the snapshot reported for pair 23
carries progress 57, because binary64 evaluates (23 / 40) * 100 to
57.49999999999999, while rounding the exact ratio - the claimed formula
round(targetsScanned / totalTargets * 100) read in exact arithmetic -
gives round(57.5) = 58. -/
theorem runMonitoringScan_progress_round_counterexample :
    ((runMonitoringScan 0 noMatchOracle [exAsset "asset_1"] exTargets40 [] []).reports.map
        fun r => (r.targetsScanned, r.progress))[23]? = some (23, 57) ∧
    jsRound ((23 : ℚ) / (40 : ℚ) * 100) = 58 ∧ (57 : ℤ) ≠ 58 := by
  refine ⟨by decide, ?_, by decide⟩
  unfold jsRound
  norm_num

/-- C6 witness: the universal clause of the theorem applied to the
concrete scenario run. -/
theorem runMonitoringScan_progress_spec_witness :
    (runMonitoringScan 0 noMatchOracle exampleAssets exampleTargets [] []).session.totalTargets =
      (exampleAssets.filter fun a => a.monitoringEnabled).length *
        (exampleTargets.filter fun t => t.enabled).length ∧
    (∀ r ∈ (runMonitoringScan 0 noMatchOracle exampleAssets exampleTargets [] []).reports,
      r.totalTargets =
        (runMonitoringScan 0 noMatchOracle exampleAssets exampleTargets [] []).session.totalTargets ∧
      (r.progress = progressValue r.targetsScanned r.totalTargets ∨
        (r.status = SessionStatus.completed ∧ r.progress = 100))) ∧
    ((runMonitoringScan 0 noMatchOracle exampleAssets exampleTargets [] []).reports.map
      fun r => r.progress).Chain' (· ≤ ·) ∧
    ((runMonitoringScan 0 noMatchOracle exampleAssets exampleTargets [] []).reports.map
      fun r => r.progress).getLast? = some 100 :=
  runMonitoringScan_progress_spec.1 0 noMatchOracle exampleAssets exampleTargets [] []

/-! ## Claim C7 -/

/-- C7: every crawler-reported match (found with a truthy url) increments
the session matchesFound and the asset matchCount by one, stamps the
asset lastScanned, persists the asset through saveProtectedAsset, and
emits exactly one critical match_found alert carrying the rounded
similarity and the match url; and at completion of any run, matchesFound
equals the number of match_found alerts emitted during the session. -/
theorem runMonitoringScan_match_invariants :
    (∀ (now : Nat) (oracle : Nat → CrawlOutcome) (target : MonitoringTarget)
        (asset : ProtectedAsset) (st : ScanState) (sim : ℚ) (url : Option String),
      oracle st.session.targetsScanned = CrawlOutcome.ok true sim url →
      truthyUrl url = true →
      (scanPair now oracle target (asset, st)).1 =
        { asset with matchCount := asset.matchCount + 1, lastScanned := some now } ∧
      (scanPair now oracle target (asset, st)).2.session.matchesFound =
        st.session.matchesFound + 1 ∧
      (scanPair now oracle target (asset, st)).2.assets =
        saveProtectedAsset
          { asset with matchCount := asset.matchCount + 1, lastScanned := some now } st.assets ∧
      (scanPair now oracle target (asset, st)).2.emitted =
        st.emitted ++ [matchAlert now st.session.targetsScanned target asset sim url] ∧
      (matchAlert now st.session.targetsScanned target asset sim url).type =
        AlertType.match_found ∧
      (matchAlert now st.session.targetsScanned target asset sim url).severity =
        AlertSeverity.critical ∧
      (matchAlert now st.session.targetsScanned target asset sim url).similarity =
        some (jsRound sim) ∧
      (matchAlert now st.session.targetsScanned target asset sim url).matchUrl = url ∧
      (matchAlert now st.session.targetsScanned target asset sim url).assetId =
        some asset.id) ∧
    (∀ (now : Nat) (oracle : Nat → CrawlOutcome) (astore : List ProtectedAsset)
        (tstore : List MonitoringTarget) (alstore : List ContentAlert)
        (hstore : List MonitoringSession),
      (runMonitoringScan now oracle astore tstore alstore hstore).session.matchesFound =
        countMatchFound (runMonitoringScan now oracle astore tstore alstore hstore).emitted) := by
  constructor
  · intro now oracle target asset st sim url ho hu
    exact scanPair_match_effects now oracle target asset st sim url ho hu
  · intro now oracle astore tstore alstore hstore
    exact (runMonitoringScan_final now oracle astore tstore alstore
      hstore _ rfl).2.2.2.2.2.2.2.2

/-- C7 witness: the per-match clause at a concrete always-matching
crawler and start state, and the count clause on the matching run. -/
theorem runMonitoringScan_match_invariants_witness :
    ((scanPair 0 matchOracle (exTarget "t1" "SiteA" true) (exAsset "asset_1", exScanState)).1 =
      { (exAsset "asset_1") with matchCount := (exAsset "asset_1").matchCount + 1, lastScanned := some 0 } ∧
    (scanPair 0 matchOracle (exTarget "t1" "SiteA" true)
        (exAsset "asset_1", exScanState)).2.session.matchesFound =
      exScanState.session.matchesFound + 1 ∧
    (scanPair 0 matchOracle (exTarget "t1" "SiteA" true) (exAsset "asset_1", exScanState)).2.assets =
      saveProtectedAsset
        { (exAsset "asset_1") with matchCount := (exAsset "asset_1").matchCount + 1, lastScanned := some 0 } exScanState.assets ∧
    (scanPair 0 matchOracle (exTarget "t1" "SiteA" true)
        (exAsset "asset_1", exScanState)).2.emitted =
      exScanState.emitted ++
        [matchAlert 0 exScanState.session.targetsScanned (exTarget "t1" "SiteA" true)
          (exAsset "asset_1") 80 (some "https://sitea.example/abc")] ∧
    (matchAlert 0 exScanState.session.targetsScanned (exTarget "t1" "SiteA" true)
      (exAsset "asset_1") 80 (some "https://sitea.example/abc")).type = AlertType.match_found ∧
    (matchAlert 0 exScanState.session.targetsScanned (exTarget "t1" "SiteA" true)
      (exAsset "asset_1") 80 (some "https://sitea.example/abc")).severity =
        AlertSeverity.critical ∧
    (matchAlert 0 exScanState.session.targetsScanned (exTarget "t1" "SiteA" true)
      (exAsset "asset_1") 80 (some "https://sitea.example/abc")).similarity =
        some (jsRound 80) ∧
    (matchAlert 0 exScanState.session.targetsScanned (exTarget "t1" "SiteA" true)
      (exAsset "asset_1") 80 (some "https://sitea.example/abc")).matchUrl =
        some "https://sitea.example/abc" ∧
    (matchAlert 0 exScanState.session.targetsScanned (exTarget "t1" "SiteA" true)
      (exAsset "asset_1") 80 (some "https://sitea.example/abc")).assetId =
        some (exAsset "asset_1").id) ∧
    (runMonitoringScan 0 matchOracle exampleAssets exampleTargets [] []).session.matchesFound =
      countMatchFound (runMonitoringScan 0 matchOracle exampleAssets exampleTargets [] []).emitted :=
  ⟨runMonitoringScan_match_invariants.1 0 matchOracle (exTarget "t1" "SiteA" true)
      (exAsset "asset_1") exScanState 80 (some "https://sitea.example/abc") rfl rfl,
    runMonitoringScan_match_invariants.2 0 matchOracle exampleAssets exampleTargets [] []⟩

/-! ## Claim C8 -/

/-- C8: whatever subset of the crawler calls throws, the session is never
aborted: the run always ends with status completed and progress 100,
every pair is still processed (the pair counter reaches totalTargets),
and no reported snapshot ever carries the error status.  In the source
the only conceivable error site is reading the asset and target lists
before the loop; both reads are themselves guarded, so the embedded run
never reaches the error status at all. -/
theorem runMonitoringScan_error_tolerance (now : Nat) (oracle : Nat → CrawlOutcome)
    (astore : List ProtectedAsset) (tstore : List MonitoringTarget)
    (alstore : List ContentAlert) (hstore : List MonitoringSession) :
    (runMonitoringScan now oracle astore tstore alstore hstore).session.status =
      SessionStatus.completed ∧
    (runMonitoringScan now oracle astore tstore alstore hstore).session.progress = 100 ∧
    (runMonitoringScan now oracle astore tstore alstore hstore).session.targetsScanned =
      (runMonitoringScan now oracle astore tstore alstore hstore).session.totalTargets ∧
    (∀ r ∈ (runMonitoringScan now oracle astore tstore alstore hstore).reports,
      r.status ≠ SessionStatus.error) := by
  obtain ⟨h1, h2, _, h4, _, _, _, h8, _⟩ :=
    runMonitoringScan_final now oracle astore tstore alstore hstore _ rfl
  exact ⟨h1, h2, h4, fun r hr => (h8 r hr).2.1⟩

/-- C8 witness: the theorem applied to a run whose crawler throws on
every single pair. -/
theorem runMonitoringScan_error_tolerance_witness :
    (runMonitoringScan 0 errOracle exampleAssets exampleTargets [] []).session.status =
      SessionStatus.completed ∧
    (runMonitoringScan 0 errOracle exampleAssets exampleTargets [] []).session.progress = 100 ∧
    (runMonitoringScan 0 errOracle exampleAssets exampleTargets [] []).session.targetsScanned =
      (runMonitoringScan 0 errOracle exampleAssets exampleTargets [] []).session.totalTargets ∧
    (∀ r ∈ (runMonitoringScan 0 errOracle exampleAssets exampleTargets [] []).reports,
      r.status ≠ SessionStatus.error) :=
  runMonitoringScan_error_tolerance 0 errOracle exampleAssets exampleTargets [] []

end Sentinel
